import Mathlib

/-!
# Verification of the grblHAL networking plugin WebSocket frame engine

Shallow embedding of the WebSocket stream implementation in `WsStream.c`
(frame header parser, payload processor, ring buffers, control-frame
handling, ping/pong liveness bookkeeping and session buffer teardown),
together with proofs about the embedded definitions.

Modelling conventions:
* machine integers are `Nat` with explicit masking (`&&&`, `%`) where the
  C code relies on wrapping or bit extraction;
* byte stores (`uint8_t[]`, ring buffer data arrays) are `Nat → Nat`
  functions updated pointwise, matching the C writes one for one;
* the external collaborators from the grbl core that `WsStream.c` calls
  are modelled from the specification: the realtime-command hook
  (`protocol_enqueue_realtime_command`) and MPG takeover are modelled as
  inactive (every byte is buffered), `malloc` is modelled as always
  succeeding, and `tcp_write` is modelled by appending the written byte
  list to an output trace;
* `RX_BUFFER_SIZE` is the grbl default 1024; `BUFNEXT`/`BUFCOUNT` are the
  grbl power-of-two ring macros, modelled with `% RX_BUFFER_SIZE`.
-/

namespace WsStream

/-- Pointwise update of a `Nat`-indexed byte store; models a C array write. -/
def upd (f : Nat → Nat) (i v : Nat) : Nat → Nat := fun j => if j = i then v else f j

@[simp] theorem upd_same (f : Nat → Nat) (i v : Nat) : upd f i v i = v := by
  simp [upd]

theorem upd_ne (f : Nat → Nat) {i j : Nat} (v : Nat) (h : j ≠ i) : upd f i v j = f j := by
  simp [upd, h]

/-- Modelled from the spec: grbl's inbound ring capacity (power of two). -/
def RX_BUFFER_SIZE : Nat := 1024

/-- Modelled from the spec: grbl's `BUFNEXT` ring-pointer increment. -/
def bufnext (p : Nat) : Nat := (p + 1) % RX_BUFFER_SIZE

/-- Modelled from the spec: grbl's `BUFCOUNT` used-slot count. -/
def bufcount (head tail : Nat) : Nat :=
  if tail ≤ head then head - tail else RX_BUFFER_SIZE - tail + head

/-- Modelled from the spec: grbl's `stream_rx_buffer_t` (and `stream_tx_buffer_t`):
fixed-capacity circular buffer with head/tail indices and a sticky overflow flag. -/
structure RxBuf where
  head : Nat
  tail : Nat
  overflow : Bool
  data : Nat → Nat

/-- The zeroed ring buffer (`rxbuf = {0}` in `defaultSettings`). -/
def RxBuf.empty : RxBuf := ⟨0, 0, false, fun _ => 0⟩

def rxbufCount (r : RxBuf) : Nat := bufcount r.head r.tail

/-- The readable content of the ring buffer, from tail to head. -/
def ringList (r : RxBuf) : List Nat :=
  (List.range (rxbufCount r)).map (fun i => r.data ((r.tail + i) % RX_BUFFER_SIZE))

/-- WebSocket session states (`websocket_state_t`). -/
inductive WsState where
  | Idle
  | Listen
  | Connected
  | Closing
  deriving DecidableEq, Repr

/-- `frame_header_t`: the in-progress frame header.  `data` is the 13-byte raw
header accumulation array, `mask` the four mask bytes as laid out in memory by
the `memcpy` into the `uint32_t mask` field, `frame` the optional heap
reassembly buffer. -/
structure FrameHeader where
  idx : Nat
  payload_len : Nat
  payload_rem : Nat
  rx_index : Nat
  frame : Option (Array Nat)
  mask : Nat → Nat
  masked : Bool
  complete : Bool
  data : Nat → Nat

/-- The zeroed header (`header = {0}` / `memset(&session->header, 0, ...)`). -/
def FrameHeader.empty : FrameHeader :=
  ⟨0, 0, 0, 0, none, fun _ => 0, false, false, fun _ => 0⟩

/-- One iteration of the header-collection loop body in `WsParse`
(`session->header.data[session->header.idx++] = *payload++;` followed by the
`idx == 2` decode of mask bit and 7-bit length and the `idx >= 6`
completion check with the 126 escape). -/
def hdrStep (h : FrameHeader) (b : Nat) : FrameHeader :=
  let h1 : FrameHeader := { h with data := upd h.data h.idx b, idx := h.idx + 1 }
  let h2 : FrameHeader :=
    if h1.idx = 2 then
      { h1 with masked := h1.data 1 &&& 0x80 != 0, payload_len := h1.data 1 &&& 0x7F }
    else h1
  if 6 ≤ h2.idx then
    if h2.idx = (if h2.payload_len = 126 then 8 else 6) then
      if h2.payload_len = 126 then
        { h2 with complete := true,
                  payload_len := (h2.data 2 <<< 8) ||| h2.data 3,
                  payload_rem := (h2.data 2 <<< 8) ||| h2.data 3,
                  mask := fun j => h2.data (4 + j) }
      else
        { h2 with complete := true,
                  payload_rem := h2.payload_len,
                  mask := fun j => h2.data (2 + j) }
    else h2
  else h2

/-- The header-collection loop of `WsParse`
(`while(!session->header.complete && plen) { ... }`); returns the header and
the unconsumed input. -/
def collectHeader (h : FrameHeader) : List Nat → FrameHeader × List Nat
  | [] => (h, [])
  | b :: r => if h.complete then (h, b :: r) else collectHeader (hdrStep h b) r

/-- `ws_sessiondata_t`, restricted to the fields the frame engine touches.
`out` is the trace of `tcp_write` calls (each entry the bytes written);
`pbufHead`/`queued`/`http_request`/`hdrsize` model the buffers that
`streamFreeBuffers` tears down. -/
structure Session where
  state : WsState
  fragment_opcode : Nat
  start_token : Nat
  ftype : Nat
  header : FrameHeader
  rxbuf : RxBuf
  pingCount : Nat
  lastSendTime : Nat
  pbufHead : Bool
  queued : Nat
  http_request : Option Nat
  hdrsize : Nat
  out : List (List Nat)

/-- The session right after `WsStreamAccept` copies `defaultSettings` and sets
`ftype = wshdr_txt` (token `0x81`). -/
def initSession : Session :=
  { state := .Connected
    fragment_opcode := 0x00      -- WsOpcode_Continuation
    start_token := 0xFF          -- FRAME_NONE
    ftype := 0x81                -- wshdr_txt
    header := .empty
    rxbuf := .empty
    pingCount := 0
    lastSendTime := 0
    pbufHead := false
    queued := 0
    http_request := none
    hdrsize := 512
    out := [] }

/-- `WsStreamRxInsert`.  The realtime-command hook and MPG takeover are
external collaborators, modelled as inactive.  Note the C function flags
overflow but still stores the byte and advances `head` unconditionally. -/
def WsStreamRxInsert (s : Session) (c : Nat) : Session × Bool :=
  if s.state = WsState.Connected then
    let next_head := bufnext s.rxbuf.head
    let ovf := if next_head = s.rxbuf.tail then true else s.rxbuf.overflow
    ({ s with rxbuf := { head := next_head, tail := s.rxbuf.tail, overflow := ovf,
                         data := upd s.rxbuf.data s.rxbuf.head c } },
     !ovf)
  else (s, false)

/-- `WsStreamGetC`: pop one byte from the inbound ring buffer. -/
def WsStreamGetC (s : Session) : Session × Option Nat :=
  if s.rxbuf.tail = s.rxbuf.head then (s, none)
  else ({ s with rxbuf := { s.rxbuf with tail := bufnext s.rxbuf.tail } },
        some (s.rxbuf.data s.rxbuf.tail))

/-- Write a byte list into an array starting at `off` (models `memcpy`; an
out-of-range write — heap overflow in C — is dropped). -/
def arrWrite (a : Array Nat) : Nat → List Nat → Array Nat
  | _, [] => a
  | off, b :: r => arrWrite (a.setD off b) (off + 1) r

/-- Copy the first `n` raw header bytes into the front of an array
(the `memcpy(header->frame, &header->data, header->idx)` in `WsCollectFrame`). -/
def hdrCopy (a : Array Nat) (data : Nat → Nat) (n : Nat) : Array Nat :=
  arrWrite a 0 ((List.range n).map data)

/-- `WsCollectFrame`: reassemble a (control) frame that spans chunks.
`malloc` is modelled as always succeeding.  Faithfully keeps the source's
copy offset `idx + payload_len - payload_rem - 1` (computed after the
`payload_rem -= len` decrement). -/
def WsCollectFrame (h : FrameHeader) (payload : List Nat) (len : Nat) :
    FrameHeader × Bool :=
  let h1 : FrameHeader :=
    if h.payload_rem > len ∧ h.payload_rem = h.payload_len then
      { h with frame := some (hdrCopy (Array.mkArray (h.payload_len + h.idx) 0) h.data h.idx) }
    else h
  let h2 : FrameHeader := { h1 with payload_rem := h1.payload_rem - len }
  match h2.frame with
  | some a =>
      let a2 := arrWrite a (h2.idx + h2.payload_len - h2.payload_rem - 1) (payload.take len)
      ({ h2 with frame := some a2 }, true)
  | none => (h2, false)

/-- `fs.opcode`: low nibble of the frame-start token (bitfield `opcode :4`). -/
def tokOpcode (t : Nat) : Nat := t &&& 0xF

/-- `fs.fin`: bit 7 of the frame-start token. -/
def tokFin (t : Nat) : Bool := t &&& 0x80 != 0

/-- Bitfield write `fs.opcode = op`: replace the low nibble of the token. -/
def tokSetOpcode (t op : Nat) : Nat := (t &&& 0xF0) ||| op

/-- The unmask-and-buffer loop of the text/binary branch of `WsParse`:
`while (payload_len--) { if(!WsStreamRxInsert(*payload++ ^ mask[i % 4])) break; plen--; i++; }`.
Arguments: cumulative payload index `i`, loop count `k` (the local
`payload_len = min(payload_rem, plen)`), remaining input.  Returns the
session, the final `i` and the input not consumed (on an overflow break the
failed byte is not consumed, as `plen` is not decremented). -/
def insertLoop (maskf : Nat → Nat) : Session → Nat → Nat → List Nat → Session × Nat × List Nat
  | s, i, 0, input => (s, i, input)
  | s, i, _ + 1, [] => (s, i, [])
  | s, i, k + 1, b :: rest =>
      let r := WsStreamRxInsert s (b ^^^ maskf (i % 4))
      if r.2 then insertLoop maskf r.1 (i + 1) k rest
      else (r.1, i, b :: rest)

/-- Body of the `WsOpcode_Text`/`WsOpcode_Binary` case of `WsParse`, after
the fin-driven `fragment_opcode` update.  Returns the session, the
unconsumed input and the `frame_done` flag. -/
def textBody (s3 : Session) (t : Nat) (rest1 : List Nat) :
    Session × List Nat × Bool :=
  if s3.header.payload_rem ≠ 0 then
    let plen := rest1.length
    let s4 := { s3 with
        start_token := if plen < s3.header.payload_rem then t else 0xFF,
        rxbuf := { s3.rxbuf with overflow := false } }
    let cnt := min s3.header.payload_rem plen
    let r := insertLoop s4.header.mask s4 s4.header.rx_index cnt rest1
    let s6 := { r.1 with header := { r.1.header with
        rx_index := r.2.1, payload_rem := r.1.header.payload_len - r.2.1 } }
    (s6, r.2.2, s6.header.payload_rem == 0)
  else (s3, rest1, false)

/-- The `WsOpcode_Text`/`WsOpcode_Binary` case of `WsParse`
(`if (fs.fin) session->fragment_opcode = WsOpcode_Continuation;` then the
unmask-and-buffer body). -/
def textProcess (s : Session) (t : Nat) (fin : Bool) (rest1 : List Nat) :
    Session × List Nat × Bool :=
  textBody (if fin then { s with fragment_opcode := 0 } else s) t rest1

/-- The bytes a control branch hands to `tcp_write(pcb, payload, payload_len, 1)`:
read from the reassembly buffer if one was allocated, else from the input at
the current payload pointer. -/
def frameOutBytes (h : FrameHeader) (rest1 : List Nat) : List Nat :=
  match h.frame with
  | some a => a.toList.take h.payload_len
  | none => rest1.take h.payload_len

/-- The `WsOpcode_Close` case of `WsParse`. -/
def closeProcess (s : Session) (rest1 : List Nat) : Session × List Nat × Bool :=
  let plen := rest1.length
  if s.header.payload_rem ≤ plen then
    let rem := s.header.payload_rem
    let c := WsCollectFrame s.header rest1 rem
    let w := frameOutBytes c.1 rest1
    ({ s with header := c.1, state := .Closing, out := s.out ++ [w] },
     rest1.drop rem, true)
  else
    let c := WsCollectFrame s.header rest1 plen
    ({ s with header := c.1 }, [], false)

/-- The `WsOpcode_Ping` case of `WsParse`.  `payload[0] = fs.token` writes the
Pong token over the first byte at the payload pointer (the reassembly buffer
when one exists, otherwise the input buffer itself). -/
def pingProcess (s : Session) (t : Nat) (rest1 : List Nat) :
    Session × List Nat × Bool :=
  let plen := rest1.length
  if s.header.payload_rem ≤ plen then
    if s.state ≠ WsState.Closing then
      let rem := s.header.payload_rem
      let c := WsCollectFrame s.header rest1 rem
      let pong := tokSetOpcode t 0xA
      if c.2 then
        let h3 := { c.1 with frame := c.1.frame.map (fun a => a.setD 0 pong) }
        let w := frameOutBytes h3 rest1
        ({ s with header := h3, out := s.out ++ [w] }, rest1.drop rem, true)
      else
        let rest2 := match rest1 with | [] => [] | _ :: r => pong :: r
        let w := rest2.take c.1.payload_len
        ({ s with header := c.1, out := s.out ++ [w] }, rest2.drop rem, true)
    else (s, rest1, true)
  else
    let c := WsCollectFrame s.header rest1 plen
    ({ s with header := c.1 }, [], false)

/-- The `WsOpcode_Pong` case of `WsParse`: liveness proof, resets `pingCount`. -/
def pongProcess (s : Session) (rest1 : List Nat) : Session × List Nat × Bool :=
  if s.header.payload_rem ≤ rest1.length then
    ({ s with pingCount := 0 }, rest1.drop s.header.payload_rem, true)
  else
    ({ s with header := { s.header with payload_rem := s.header.payload_rem - rest1.length } },
     [], false)

/-- The `default` case of `WsParse`: unsupported opcode, payload discarded. -/
def dfltProcess (s : Session) (rest1 : List Nat) : Session × List Nat × Bool :=
  if s.header.payload_rem ≤ rest1.length then
    (s, rest1.drop s.header.payload_rem, true)
  else
    ({ s with header := { s.header with payload_rem := s.header.payload_rem - rest1.length } },
     [], false)

/-- The opcode dispatch (`switch (fs.opcode)`) of `WsParse`. -/
def wsDispatch (s2 : Session) (t : Nat) (fin : Bool) (op : Nat) (rest1 : List Nat) :
    Session × List Nat × Bool :=
  if op = 0 then ({ s2 with fragment_opcode := 0 }, rest1, false)
  else if op = 1 ∨ op = 2 then textProcess s2 t fin rest1
  else if op = 8 then closeProcess s2 rest1
  else if op = 9 then pingProcess s2 t rest1
  else if op = 10 then pongProcess s2 rest1
  else dfltProcess s2 rest1

/-- The `frame_done` epilogue of `WsParse`: free the reassembly buffer and
`memset` the header. -/
def wsEpilogue (r : Session × List Nat × Bool) : Session × List Nat :=
  if r.2.2 then ({ r.1 with header := FrameHeader.empty }, r.2.1) else (r.1, r.2.1)

/-- `WsParse`: collect the frame header, then process (at most) the current
frame.  Returns the new session and the unconsumed input (whose length is
`len - return-value` in the C function); on `frame_done` the header is
zeroed (`memset`), which also models freeing the reassembly buffer. -/
def wsParse (s : Session) (input : List Nat) : Session × List Nat :=
  let c := collectHeader s.header input
  let h' := c.1
  let rest1 := c.2
  let s1 : Session := { s with header := h' }
  if h'.complete ∧ (rest1 ≠ [] ∨ h'.payload_rem = 0) then
    let t0 := h'.data 0
    let fin := tokFin t0
    let op0 := tokOpcode t0
    let s2 := if fin = false ∧ op0 ≠ 0 then { s1 with fragment_opcode := op0 } else s1
    let op := if op0 = 0 then s2.fragment_opcode else op0
    let t := if op0 = 0 then tokSetOpcode t0 s2.fragment_opcode else t0
    wsEpilogue (wsDispatch s2 t fin op rest1)
  else (s1, rest1)

/-- Feeding a single byte (`wsParse` on a one-byte input). -/
def stepByte (s : Session) (b : Nat) : Session := (wsParse s [b]).1

/-- Fuel-bounded re-offer loop (each productive `wsParse` call consumes at
least one byte, so `input.length + 1` fuel is enough). -/
def wsFeedAux : Nat → Session → List Nat → Session × List Nat
  | 0, s, input => (s, input)
  | _ + 1, s, [] => (s, [])
  | n + 1, s, input =>
      let r := wsParse s input
      if r.2.length < input.length then wsFeedAux n r.1 r.2 else r

/-- The driver loop of `WsStreamHandler` restricted to one chunk: keep
re-offering the unconsumed bytes to `WsParse` until the chunk is consumed
or no progress is made. -/
def wsFeed (s : Session) (input : List Nat) : Session × List Nat :=
  wsFeedAux (input.length + 1) s input

/-- Feed a list of chunks through the driver, chunk after chunk. -/
def feedChunks (s : Session) (cs : List (List Nat)) : Session :=
  cs.foldl (fun s c => (wsFeed s c).1) s

/-- The kinds of buffers `streamFreeBuffers` releases. -/
inductive Freed where
  | pbufChain
  | queuedPbuf
  | httpRequest
  | frameBuf
  deriving DecidableEq, Repr

/-- `streamFreeBuffers`: session buffer teardown.  Returns the session and
the list of `free`/`pbuf_free` calls performed.  Faithful detail: the
`pbufHead` and `http_request` pointers are cleared after freeing, but
`header.frame` is freed without being cleared. -/
def streamFreeBuffers (s : Session) : Session × List Freed :=
  let e1 : List Freed := if s.pbufHead then [Freed.pbufChain] else []
  let s1 : Session := if s.pbufHead then { s with pbufHead := false } else s
  let e2 : List Freed := List.replicate s1.queued Freed.queuedPbuf
  let s2 : Session := { s1 with queued := 0 }
  let e3 : List Freed := if s2.http_request.isSome then [Freed.httpRequest] else []
  let s3 : Session :=
    if s2.http_request.isSome then { s2 with http_request := none, hdrsize := 512 } else s2
  let e4 : List Freed := if s3.header.frame.isSome then [Freed.frameBuf] else []
  (s3, e1 ++ e2 ++ e3 ++ e4)

/-- The idle-ping / liveness tail of `WsStreamHandler`: send `"Hi"` pings
every `3 * configTICK_RATE_HZ` ticks of outbound idle, force `Closing` once
`pingCount > 3`.  `now` is `xTaskGetTickCount()` and `sndbuf` is
`tcp_sndbuf(session->pcb)`. -/
def wsPingCheck (now sndbuf hz : Nat) (s : Session) : Session :=
  if s.pingCount > 3 then { s with state := WsState.Closing }
  else if s.state ≠ WsState.Closing ∧ now - s.lastSendTime > 3 * hz then
    if sndbuf > 4 then
      { s with out := s.out ++ [[0x89, 2, 72, 105]],
               lastSendTime := now, pingCount := s.pingCount + 1 }
    else s
  else s

/-- The outbound frame serialization of `WsStreamHandler` (`tempBuffer`
construction): 2-byte header below 126 payload bytes, otherwise a 4-byte
header with 16-bit big-endian extended length; no masking. -/
def wsEncodeFrame (token : Nat) (payload : List Nat) : List Nat :=
  let n := payload.length
  [token, if n < 126 then n else 126]
    ++ (if n < 126 then [] else [(n >>> 8) &&& 0xFF, n &&& 0xFF])
    ++ payload

/-- Mask a payload with a 4-byte mask starting at cumulative offset `i`
(RFC 6455 client-side masking; masking is an involution). -/
def maskBytes (mask : List Nat) : Nat → List Nat → List Nat
  | _, [] => []
  | i, b :: r => (b ^^^ mask.getD (i % 4) 0) :: maskBytes mask (i + 1) r

/-- Turn a server-format frame (as produced by `wsEncodeFrame`) into the
client-masked form the parser expects: set the mask bit in the length byte,
splice in the 4 mask bytes, XOR-mask the payload. -/
def clientMaskWire (wire : List Nat) (mask : List Nat) : List Nat :=
  match wire with
  | t :: l :: rest =>
      if l < 126 then t :: (128 + l) :: (mask ++ maskBytes mask 0 rest)
      else
        match rest with
        | e1 :: e2 :: pay => t :: (128 + l) :: e1 :: e2 :: (mask ++ maskBytes mask 0 pay)
        | _ => []
  | _ => []

/-- Mask a payload with a mask function starting at cumulative offset `i`
(byte `i` is XORed with mask byte `i % 4`). -/
def xorStream (f : Nat → Nat) : Nat → List Nat → List Nat
  | _, [] => []
  | i, b :: r => (b ^^^ f (i % 4)) :: xorStream f (i + 1) r

/-- A client data frame, used to describe valid inbound byte streams.  The
mask is a function on byte positions (only positions 0..3 reach the wire). -/
structure ClientFrame where
  fin : Bool
  op : Nat
  mask : Nat → Nat
  payload : List Nat

/-- First header byte: fin bit plus opcode nibble. -/
def ClientFrame.b0 (F : ClientFrame) : Nat := (if F.fin then 128 else 0) + F.op

/-- The wire header: 7-bit masked length below 126, otherwise the 126
escape with a 16-bit big-endian length, followed by the 4 mask bytes. -/
def ClientFrame.hdrBytes (F : ClientFrame) : List Nat :=
  if F.payload.length < 126 then
    [F.b0, 128 + F.payload.length, F.mask 0, F.mask 1, F.mask 2, F.mask 3]
  else
    [F.b0, 254, F.payload.length / 256, F.payload.length % 256,
     F.mask 0, F.mask 1, F.mask 2, F.mask 3]

/-- Full wire bytes of the frame: header plus masked payload. -/
def ClientFrame.bytes (F : ClientFrame) : List Nat :=
  F.hdrBytes ++ xorStream F.mask 0 F.payload

/-- Length of the wire header (6, or 8 with the 126 escape). -/
def ClientFrame.hdrLen (F : ClientFrame) : Nat :=
  if F.payload.length < 126 then 6 else 8

/-- A well-formed unfragmented data frame: text or binary opcode, nonempty
payload below the 16-bit length limit, and a canonical mask function
(zero off the four mask byte positions). -/
def ClientFrame.Ok (F : ClientFrame) : Prop :=
  (F.op = 1 ∨ F.op = 2) ∧ 0 < F.payload.length ∧ F.payload.length < 65536 ∧
    ∀ j, 4 ≤ j → F.mask j = 0

/-- The byte stream of a sequence of frames. -/
def streamBytes (Fs : List ClientFrame) : List Nat :=
  (Fs.map ClientFrame.bytes).flatten

/-! ### Derived predicates and invariants -/

/-! ### Ring buffer lemmas -/

/-- Ring well-formedness: indices in range, overflow clear. -/
def RWF (r : RxBuf) : Prop :=
  r.head < RX_BUFFER_SIZE ∧ r.tail < RX_BUFFER_SIZE ∧ r.overflow = false

/-- The ring-buffer part of a successful `WsStreamRxInsert`. -/
def rbInsert (r : RxBuf) (c : Nat) : RxBuf :=
  { head := bufnext r.head, tail := r.tail,
    overflow := if bufnext r.head = r.tail then true else r.overflow,
    data := upd r.data r.head c }

def rbInsertMany (r : RxBuf) (bs : List Nat) : RxBuf := bs.foldl rbInsert r

/-- Header state after folding the first bytes of a frame. -/
def hdrIter (bs : List Nat) : FrameHeader := bs.foldl hdrStep FrameHeader.empty

/-- The fully collected header of a frame. -/
def postHdr (F : ClientFrame) : FrameHeader := hdrIter F.hdrBytes

/-- The session after one mid-payload byte of a text/binary frame. -/
def textStep1 (s : Session) (b : Nat) : Session :=
  { s with
      fragment_opcode := if tokFin (s.header.data 0) then 0
        else tokOpcode (s.header.data 0),
      start_token := s.header.data 0,
      rxbuf := rbInsert s.rxbuf (b ^^^ s.header.mask (s.header.rx_index % 4)),
      header := { s.header with
        rx_index := s.header.rx_index + 1,
        payload_rem := s.header.payload_rem - 1 } }

def OkStream (Fs : List ClientFrame) : Prop := ∀ F ∈ Fs, F.Ok

/-- Session alignment at byte position `j` inside frame `F`. -/
def ConfAt (s : Session) (F : ClientFrame) (j : Nat) : Prop :=
  if j < F.hdrLen then s.header = hdrIter (F.bytes.take j)
  else s.header = { postHdr F with
    rx_index := j - F.hdrLen,
    payload_rem := F.payload.length - (j - F.hdrLen) }

/-- The session is mid-stream: the remaining input is the rest of the
current frame followed by further well-formed data frames. -/
def Conf (s : Session) (input : List Nat) : Prop :=
  s.state = WsState.Connected ∧
  ((s.header = FrameHeader.empty ∧ ∃ Fs, OkStream Fs ∧ input = streamBytes Fs) ∨
   (∃ F j Fs, F.Ok ∧ OkStream Fs ∧ 0 < j ∧ j < F.bytes.length ∧ ConfAt s F j ∧
      input = F.bytes.drop j ++ streamBytes Fs))

def HInv (h : FrameHeader) : Prop :=
  h.complete = false → (if h.payload_len = 126 then h.idx ≤ 7 else h.idx ≤ 5)

/-! ### Theorems -/

/-! ### Arithmetic helpers -/

theorem and_127_carry {n : Nat} (h : n < 128) : (128 + n) &&& 127 = n := by
  have h1 : (128 + n) &&& (2 ^ 7 - 1) = (128 + n) % 2 ^ 7 :=
    Nat.and_pow_two_sub_one_eq_mod _ 7
  norm_num at h1
  omega

theorem and_127_of_lt {n : Nat} (h : n < 128) : n &&& 127 = n := by
  have h1 : n &&& (2 ^ 7 - 1) = n % 2 ^ 7 := Nat.and_pow_two_sub_one_eq_mod _ 7
  norm_num at h1
  omega

theorem and_15_carry {n : Nat} (h : n < 16) : (128 + n) &&& 15 = n := by
  have h1 : (128 + n) &&& (2 ^ 4 - 1) = (128 + n) % 2 ^ 4 :=
    Nat.and_pow_two_sub_one_eq_mod _ 4
  norm_num at h1
  omega

theorem and_15_of_lt {n : Nat} (h : n < 16) : n &&& 15 = n := by
  have h1 : n &&& (2 ^ 4 - 1) = n % 2 ^ 4 := Nat.and_pow_two_sub_one_eq_mod _ 4
  norm_num at h1
  omega

theorem and_128_hi {n : Nat} (h : n < 128) : (128 + n) &&& 128 = 128 := by
  have h1 : (128 + n) &&& 2 ^ 7 = (Nat.testBit (128 + n) 7).toNat * 2 ^ 7 :=
    Nat.and_two_pow _ 7
  rw [Nat.testBit_to_div_mod] at h1
  have h2 : (128 + n) / 2 ^ 7 = 1 := by norm_num; omega
  rw [h2] at h1
  norm_num at h1 ⊢
  omega

theorem and_128_lo {n : Nat} (h : n < 128) : n &&& 128 = 0 := by
  have h1 : n &&& 2 ^ 7 = (Nat.testBit n 7).toNat * 2 ^ 7 := Nat.and_two_pow _ 7
  rw [Nat.testBit_lt_two_pow (by norm_num; omega)] at h1
  norm_num at h1
  omega

theorem extLen (n : Nat) : ((n / 256) <<< 8) ||| (n % 256) = n := by
  have hlt : n % 256 < 2 ^ 8 := by
    have := Nat.mod_lt n (y := 256) (by norm_num)
    norm_num
    omega
  have h1 := Nat.mul_add_lt_is_or hlt (n / 256)
  rw [Nat.shiftLeft_eq]
  have h2 : n / 256 * 2 ^ 8 = 2 ^ 8 * (n / 256) := by ring
  rw [h2, ← h1]
  have := Nat.div_add_mod n 256
  norm_num
  omega

theorem WsStreamRxInsert_eq (s : Session) (c : Nat) (hst : s.state = WsState.Connected) :
    WsStreamRxInsert s c =
      ({ s with rxbuf := rbInsert s.rxbuf c }, !(rbInsert s.rxbuf c).overflow) := by
  simp [WsStreamRxInsert, rbInsert, hst]

theorem rbInsert_spec (r : RxBuf) (c : Nat) (hw : RWF r)
    (hc : rxbufCount r < RX_BUFFER_SIZE - 1) :
    RWF (rbInsert r c) ∧ rxbufCount (rbInsert r c) = rxbufCount r + 1 ∧
      (rbInsert r c).tail = r.tail ∧ ringList (rbInsert r c) = ringList r ++ [c] := by
  obtain ⟨hh, ht, ho⟩ := hw
  simp only [RWF, rxbufCount, bufcount, bufnext, RX_BUFFER_SIZE] at *
  have hmod : (r.head + 1) % 1024 = if r.head = 1023 then 0 else r.head + 1 := by
    split <;> omega
  have hnotfull : (r.head + 1) % 1024 ≠ r.tail := by
    rw [hmod]
    split at hc <;> split <;> omega
  have hovf : (rbInsert r c).overflow = false := by
    simp [rbInsert, bufnext, RX_BUFFER_SIZE, hnotfull, ho]
  have hcnt : (if r.tail ≤ (rbInsert r c).head then (rbInsert r c).head - r.tail
      else 1024 - r.tail + (rbInsert r c).head)
      = (if r.tail ≤ r.head then r.head - r.tail else 1024 - r.tail + r.head) + 1 := by
    simp only [rbInsert, bufnext, RX_BUFFER_SIZE]
    rw [hmod]
    split at hc <;> split <;> split <;> omega
  refine ⟨⟨?_, ?_, hovf⟩, ?_, rfl, ?_⟩
  · simp only [rbInsert, bufnext, RX_BUFFER_SIZE]
    omega
  · simpa [rbInsert] using ht
  · exact hcnt
  · have hheadeq : (r.tail + (if r.tail ≤ r.head then r.head - r.tail
        else 1024 - r.tail + r.head)) % 1024 = r.head := by
      split <;> omega
    have hne : ∀ i, i < (if r.tail ≤ r.head then r.head - r.tail
        else 1024 - r.tail + r.head) → (r.tail + i) % 1024 ≠ r.head := by
      intro i hi he
      split at hi <;> omega
    show ringList _ = ringList _ ++ [c]
    simp only [ringList, rxbufCount, bufcount, RX_BUFFER_SIZE]
    rw [show (rbInsert r c).tail = r.tail from rfl, hcnt, List.range_succ, List.map_append,
      List.map_cons, List.map_nil]
    congr 1
    · apply List.map_congr_left
      intro i hi
      have hi2 := List.mem_range.mp hi
      show (rbInsert r c).data ((r.tail + i) % 1024) = r.data ((r.tail + i) % 1024)
      simp only [rbInsert]
      rw [upd_ne _ _ (hne i hi2)]
    · show [(rbInsert r c).data _] = [c]
      simp only [rbInsert]
      rw [hheadeq, upd_same]

theorem rbInsertMany_spec :
    ∀ (bs : List Nat) (r : RxBuf), RWF r →
    rxbufCount r + bs.length ≤ RX_BUFFER_SIZE - 1 →
    RWF (rbInsertMany r bs) ∧
      rxbufCount (rbInsertMany r bs) = rxbufCount r + bs.length ∧
      (rbInsertMany r bs).tail = r.tail ∧
      ringList (rbInsertMany r bs) = ringList r ++ bs
  | [], r, hw, _ => by simp [rbInsertMany, hw]
  | b :: bs, r, hw, hb => by
      have h1 := rbInsert_spec r b hw (by simp at hb; omega)
      obtain ⟨hw1, hc1, ht1, hl1⟩ := h1
      have ih := rbInsertMany_spec bs (rbInsert r b) hw1 (by simp at hb ⊢; omega)
      obtain ⟨hw2, hc2, ht2, hl2⟩ := ih
      have hstep : rbInsertMany r (b :: bs) = rbInsertMany (rbInsert r b) bs := rfl
      refine ⟨hstep ▸ hw2, ?_, ?_, ?_⟩
      · rw [hstep, hc2, hc1]; simp; omega
      · rw [hstep, ht2, ht1]
      · rw [hstep, hl2, hl1]; simp

theorem insertLoop_spec (f : Nat → Nat) :
    ∀ (k : Nat) (input : List Nat) (s : Session) (i : Nat),
    s.state = WsState.Connected → RWF s.rxbuf →
    rxbufCount s.rxbuf + k ≤ RX_BUFFER_SIZE - 1 → k ≤ input.length →
    insertLoop f s i k input =
      ({ s with rxbuf := rbInsertMany s.rxbuf (xorStream f i (input.take k)) },
       i + k, input.drop k)
  | 0, input, s, i, _, _, _, _ => by
      simp [insertLoop, rbInsertMany, xorStream]
  | k + 1, [], s, i, _, _, _, hk => by simp at hk
  | k + 1, b :: rest, s, i, hst, hw, hb, hk => by
      have hlt : rxbufCount s.rxbuf < RX_BUFFER_SIZE - 1 := by omega
      have h1 := rbInsert_spec s.rxbuf (b ^^^ f (i % 4)) hw hlt
      obtain ⟨hw1, hc1, _, _⟩ := h1
      have hins := WsStreamRxInsert_eq s (b ^^^ f (i % 4)) hst
      have hovf : (rbInsert s.rxbuf (b ^^^ f (i % 4))).overflow = false := hw1.2.2
      have ih := insertLoop_spec f k rest { s with rxbuf := rbInsert s.rxbuf (b ^^^ f (i % 4)) }
        (i + 1) hst hw1 (by rw [hc1] at *; omega) (by simp at hk; omega)
      show insertLoop f s i (k + 1) (b :: rest) = _
      rw [insertLoop, hins]
      simp only [hovf, Bool.not_false, if_pos]
      rw [ih]
      simp [xorStream, rbInsertMany, List.take_succ_cons, List.drop_succ_cons]
      omega

/-- `{ r with overflow := false }` is the identity on well-formed rings. -/
theorem rxbuf_clear_overflow (r : RxBuf) (h : r.overflow = false) :
    ({ r with overflow := false } : RxBuf) = r := by
  cases r
  simp_all

theorem textBody_spec (s : Session) (t : Nat) (input : List Nat)
    (hst : s.state = WsState.Connected) (hw : RWF s.rxbuf)
    (hremeq : s.header.payload_rem = s.header.payload_len - s.header.rx_index)
    (hrem : 0 < s.header.payload_rem)
    (hbud : rxbufCount s.rxbuf + input.length ≤ RX_BUFFER_SIZE - 1) :
    textBody s t input =
      ({ s with
          start_token := if input.length < s.header.payload_rem then t else 0xFF,
          rxbuf := rbInsertMany s.rxbuf (xorStream s.header.mask s.header.rx_index
            (input.take (min s.header.payload_rem input.length))),
          header := { s.header with
            rx_index := s.header.rx_index + min s.header.payload_rem input.length,
            payload_rem := s.header.payload_rem - min s.header.payload_rem input.length } },
       input.drop (min s.header.payload_rem input.length),
       decide (s.header.payload_rem ≤ input.length)) := by
  have hovr : ({ s.rxbuf with overflow := false } : RxBuf) = s.rxbuf :=
    rxbuf_clear_overflow _ hw.2.2
  have hcnt_le : min s.header.payload_rem input.length ≤ input.length := Nat.min_le_right _ _
  have hset : ∀ (st : Nat),
      ({ s with start_token := st, rxbuf := { s.rxbuf with overflow := false } } : Session)
        = { s with start_token := st } := by
    intro st
    rw [hovr]
  have hbud2 : rxbufCount s.rxbuf + min s.header.payload_rem input.length
      ≤ RX_BUFFER_SIZE - 1 := by omega
  simp only [textBody, if_pos (Nat.pos_iff_ne_zero.mp hrem)]
  rw [hset]
  rw [insertLoop_spec s.header.mask (min s.header.payload_rem input.length) input
    { s with start_token := if input.length < s.header.payload_rem then t else 0xFF }
    s.header.rx_index hst hw hbud2 hcnt_le]
  simp only [Prod.mk.injEq]
  refine ⟨?_, trivial, ?_⟩
  · have harith : s.header.payload_len -
        (s.header.rx_index + min s.header.payload_rem input.length)
        = s.header.payload_rem - min s.header.payload_rem input.length := by omega
    simp only [harith]
  · have harith : s.header.payload_len -
        (s.header.rx_index + min s.header.payload_rem input.length)
        = s.header.payload_rem - min s.header.payload_rem input.length := by omega
    simp only [harith]
    rcases le_or_lt s.header.payload_rem input.length with hle | hlt
    · rw [Nat.min_eq_left hle, Nat.sub_self]
      simp [hle]
    · rw [Nat.min_eq_right (Nat.le_of_lt hlt)]
      have h1 : s.header.payload_rem - input.length ≠ 0 := by omega
      have h2 : ¬ (s.header.payload_rem ≤ input.length) := by omega
      simp [h1, h2]

theorem wsParse_text (s : Session) (input : List Nat) (hne : input ≠ [])
    (hst : s.state = WsState.Connected)
    (hcomp : s.header.complete = true)
    (hop : tokOpcode (s.header.data 0) = 1 ∨ tokOpcode (s.header.data 0) = 2)
    (hremeq : s.header.payload_rem = s.header.payload_len - s.header.rx_index)
    (hrem : 0 < s.header.payload_rem)
    (hw : RWF s.rxbuf)
    (hbud : rxbufCount s.rxbuf + input.length ≤ RX_BUFFER_SIZE - 1) :
    wsParse s input =
      (if s.header.payload_rem ≤ input.length then
        ({ s with
            fragment_opcode := if tokFin (s.header.data 0) then 0
              else tokOpcode (s.header.data 0),
            start_token := if input.length < s.header.payload_rem then s.header.data 0
              else 0xFF,
            rxbuf := rbInsertMany s.rxbuf (xorStream s.header.mask s.header.rx_index
              (input.take (min s.header.payload_rem input.length))),
            header := FrameHeader.empty },
         input.drop (min s.header.payload_rem input.length))
      else
        ({ s with
            fragment_opcode := if tokFin (s.header.data 0) then 0
              else tokOpcode (s.header.data 0),
            start_token := if input.length < s.header.payload_rem then s.header.data 0
              else 0xFF,
            rxbuf := rbInsertMany s.rxbuf (xorStream s.header.mask s.header.rx_index
              (input.take (min s.header.payload_rem input.length))),
            header := { s.header with
              rx_index := s.header.rx_index + min s.header.payload_rem input.length,
              payload_rem := s.header.payload_rem - min s.header.payload_rem input.length } },
         input.drop (min s.header.payload_rem input.length))) := by
  obtain ⟨b, r, rfl⟩ : ∃ b r, input = b :: r := by
    cases input with
    | nil => exact absurd rfl hne
    | cons b r => exact ⟨_, _, rfl⟩
  have hcol : collectHeader s.header (b :: r) = (s.header, b :: r) := by
    simp [collectHeader, hcomp]
  have hbody := fun (v : Nat) => textBody_spec { s with fragment_opcode := v }
    (s.header.data 0) (b :: r) hst hw hremeq hrem hbud
  rcases hop with hopv | hopv <;>
    cases hf : tokFin (s.header.data 0) <;>
    · simp only [wsParse, wsDispatch, wsEpilogue, textProcess, hcol, hcomp, hopv, hf]
      norm_num
      rw [hbody]
      rcases le_or_lt s.header.payload_rem (b :: r).length with hle | hlt
      · have hle2 : s.header.payload_rem ≤ r.length + 1 := by simpa using hle
        simp [hle2, hcomp]
      · have h2 : ¬ (s.header.payload_rem ≤ r.length + 1) := by
          simp only [List.length_cons] at hlt
          omega
        simp [h2, hcomp]

/-! ### Header-phase lemmas -/

theorem wsParse_hdr (s : Session) (b : Nat) (r : List Nat)
    (hnc : s.header.complete = false) :
    wsParse s (b :: r) = wsParse { s with header := hdrStep s.header b } r := by
  simp only [wsParse, collectHeader, hnc]
  simp

theorem wsParse_nil (s : Session)
    (h : ¬ (s.header.complete = true ∧ s.header.payload_rem = 0)) :
    wsParse s [] = (s, []) := by
  simp only [wsParse, collectHeader]
  rw [if_neg (by simpa using h)]

theorem stepByte_hdr (s : Session) (b : Nat)
    (hnc : s.header.complete = false)
    (h2 : ¬ ((hdrStep s.header b).complete = true ∧ (hdrStep s.header b).payload_rem = 0)) :
    stepByte s b = { s with header := hdrStep s.header b } := by
  unfold stepByte
  rw [wsParse_hdr s b [] hnc, wsParse_nil _ (by simpa using h2)]

theorem hdrStep_idx (h : FrameHeader) (b : Nat) : (hdrStep h b).idx = h.idx + 1 := by
  simp only [hdrStep]
  split <;> split <;> (try split) <;> (try split) <;> rfl

theorem hdrStep_complete_low (h : FrameHeader) (b : Nat) (hc : h.complete = false)
    (hidx : h.idx + 1 < 6) : (hdrStep h b).complete = false := by
  simp only [hdrStep]
  split <;> split <;> (try split) <;> (try split) <;> simp_all

theorem foldl_hdrStep_incomplete :
    ∀ (xs : List Nat) (h : FrameHeader), h.complete = false → h.idx + xs.length < 6 →
    (xs.foldl hdrStep h).complete = false ∧ (xs.foldl hdrStep h).idx = h.idx + xs.length
  | [], h, hc, _ => ⟨hc, by simp⟩
  | x :: xs, h, hc, hb => by
      have hb1 : h.idx + 1 < 6 := by simp at hb; omega
      have h1 := hdrStep_complete_low h x hc hb1
      have h2 := hdrStep_idx h x
      have ih := foldl_hdrStep_incomplete xs (hdrStep h x) h1 (by simp at hb ⊢; omega)
      constructor
      · simpa using ih.1
      · have := ih.2
        simp only [List.foldl_cons, List.length_cons, h2] at *
        omega

theorem postHdr_spec6 (F : ClientFrame) (h126 : F.payload.length < 126) :
    (postHdr F).complete = true ∧ (postHdr F).payload_len = F.payload.length ∧
    (postHdr F).payload_rem = F.payload.length ∧ (postHdr F).rx_index = 0 ∧
    (postHdr F).idx = 6 ∧ (postHdr F).frame = none ∧
    (postHdr F).data 0 = F.b0 ∧ ∀ j, j < 4 → (postHdr F).mask j = F.mask j := by
  have e1 : (128 + F.payload.length) &&& 127 = F.payload.length := and_127_carry (by omega)
  have e2 : F.payload.length ≠ 126 := by omega
  simp only [postHdr, hdrIter, ClientFrame.hdrBytes, if_pos h126, List.foldl_cons,
    List.foldl_nil]
  simp [hdrStep, upd, FrameHeader.empty, e1, e2]
  intro j hj
  interval_cases j <;> simp

theorem postHdr_spec8 (F : ClientFrame) (h126 : ¬ F.payload.length < 126) :
    (postHdr F).complete = true ∧ (postHdr F).payload_len = F.payload.length ∧
    (postHdr F).payload_rem = F.payload.length ∧ (postHdr F).rx_index = 0 ∧
    (postHdr F).idx = 8 ∧ (postHdr F).frame = none ∧
    (postHdr F).data 0 = F.b0 ∧ ∀ j, j < 4 → (postHdr F).mask j = F.mask j := by
  have e1 : (254 : Nat) &&& 127 = 126 := by decide
  have e2 : ((F.payload.length / 256) <<< 8) ||| (F.payload.length % 256)
      = F.payload.length := extLen _
  simp only [postHdr, hdrIter, ClientFrame.hdrBytes, if_neg h126, List.foldl_cons,
    List.foldl_nil]
  simp [hdrStep, upd, FrameHeader.empty, e1, e2]
  intro j hj
  interval_cases j <;> simp

theorem hdrIter_escape_6 (F : ClientFrame) (h126 : ¬ F.payload.length < 126) :
    (hdrIter (F.hdrBytes.take 6)).complete = false ∧
      (hdrIter (F.hdrBytes.take 6)).idx = 6 := by
  have e1 : (254 : Nat) &&& 127 = 126 := by decide
  simp only [hdrIter, ClientFrame.hdrBytes, if_neg h126, List.take, List.foldl_cons,
    List.foldl_nil]
  simp [hdrStep, upd, FrameHeader.empty, e1]

theorem hdrIter_escape_7 (F : ClientFrame) (h126 : ¬ F.payload.length < 126) :
    (hdrIter (F.hdrBytes.take 7)).complete = false ∧
      (hdrIter (F.hdrBytes.take 7)).idx = 7 := by
  have e1 : (254 : Nat) &&& 127 = 126 := by decide
  simp only [hdrIter, ClientFrame.hdrBytes, if_neg h126, List.take, List.foldl_cons,
    List.foldl_nil]
  simp [hdrStep, upd, FrameHeader.empty, e1]

/-! ### Single-byte decomposition of `wsParse` on valid streams -/

theorem step_text_done (s : Session) (b : Nat) (r : List Nat)
    (hst : s.state = WsState.Connected)
    (hcomp : s.header.complete = true)
    (hop : tokOpcode (s.header.data 0) = 1 ∨ tokOpcode (s.header.data 0) = 2)
    (hremeq : s.header.payload_rem = s.header.payload_len - s.header.rx_index)
    (hrem : s.header.payload_rem = 1)
    (hw : RWF s.rxbuf)
    (hbud : rxbufCount s.rxbuf + (b :: r).length ≤ RX_BUFFER_SIZE - 1) :
    wsParse s (b :: r) = (stepByte s b, r) ∧ (stepByte s b).header = FrameHeader.empty := by
  have h1 := wsParse_text s (b :: r) (by simp) hst hcomp hop hremeq (by omega) hw hbud
  have h2 := wsParse_text s [b] (by simp) hst hcomp hop hremeq (by omega) hw
    (by simp at hbud ⊢; omega)
  rw [if_pos (by simp; omega)] at h1
  rw [if_pos (by simp; omega)] at h2
  unfold stepByte
  rw [h2, h1]
  have hmin1 : min s.header.payload_rem (b :: r).length = 1 := by simp; omega
  have hmin2 : min s.header.payload_rem [b].length = 1 := by simp; omega
  simp only [hmin1, hmin2] at *
  constructor
  · have e1 : ¬ (r.length + 1 < s.header.payload_rem) := by omega
    have e2 : ¬ (1 < s.header.payload_rem) := by omega
    simp [e1, e2]
  · simp

theorem stepByte_text_mid (s : Session) (b : Nat)
    (hst : s.state = WsState.Connected)
    (hcomp : s.header.complete = true)
    (hop : tokOpcode (s.header.data 0) = 1 ∨ tokOpcode (s.header.data 0) = 2)
    (hremeq : s.header.payload_rem = s.header.payload_len - s.header.rx_index)
    (hrem2 : 2 ≤ s.header.payload_rem)
    (hw : RWF s.rxbuf)
    (hbud : rxbufCount s.rxbuf + 1 ≤ RX_BUFFER_SIZE - 1) :
    stepByte s b = textStep1 s b := by
  unfold stepByte textStep1
  rw [wsParse_text s [b] (by simp) hst hcomp hop hremeq (by omega) hw (by simpa using hbud)]
  rw [if_neg (by simp; omega)]
  have hmin : min s.header.payload_rem [b].length = 1 := by simp; omega
  simp only [hmin]
  have hst1 : (1 : Nat) < s.header.payload_rem := by omega
  simp [hst1, xorStream, rbInsertMany]

theorem rbInsertMany_cons (r : RxBuf) (x : Nat) (xs : List Nat) :
    rbInsertMany r (x :: xs) = rbInsertMany (rbInsert r x) xs := rfl

theorem step_text_mid (s : Session) (b : Nat) (r : List Nat)
    (hst : s.state = WsState.Connected)
    (hcomp : s.header.complete = true)
    (hop : tokOpcode (s.header.data 0) = 1 ∨ tokOpcode (s.header.data 0) = 2)
    (hremeq : s.header.payload_rem = s.header.payload_len - s.header.rx_index)
    (hrem2 : 2 ≤ s.header.payload_rem)
    (hw : RWF s.rxbuf)
    (hbud : rxbufCount s.rxbuf + (b :: r).length ≤ RX_BUFFER_SIZE - 1) :
    wsParse s (b :: r) = wsParse (stepByte s b) r := by
  have hbud1 : rxbufCount s.rxbuf + 1 ≤ RX_BUFFER_SIZE - 1 := by simp at hbud; omega
  have hS := stepByte_text_mid s b hst hcomp hop hremeq hrem2 hw hbud1
  have hins := rbInsert_spec s.rxbuf (b ^^^ s.header.mask (s.header.rx_index % 4)) hw
    (by omega)
  cases r with
  | nil =>
      rw [wsParse_text s [b] (by simp) hst hcomp hop hremeq (by omega) hw
        (by simpa using hbud1)]
      rw [if_neg (by simp; omega)]
      rw [hS, wsParse_nil _ (by simp [textStep1]; omega)]
      have hmin : min s.header.payload_rem [b].length = 1 := by simp; omega
      simp only [hmin]
      have hst1 : (1 : Nat) < s.header.payload_rem := by omega
      simp [hst1, xorStream, rbInsertMany, textStep1]
  | cons c r' =>
      rw [wsParse_text s (b :: c :: r') (by simp) hst hcomp hop hremeq (by omega) hw hbud]
      rw [hS]
      rw [wsParse_text (textStep1 s b) (c :: r') (by simp)
        (by simp [textStep1, hst]) (by simp [textStep1, hcomp])
        (by simpa [textStep1] using hop)
        (by simp [textStep1]; omega) (by simp [textStep1]; omega)
        (by simpa [textStep1] using hins.1)
        (by simp [textStep1, hins.2.1] at *; omega)]
      simp only [textStep1, List.length_cons]
      have hminL : min s.header.payload_rem (r'.length + 1 + 1)
          = min (s.header.payload_rem - 1) (r'.length + 1) + 1 := by omega
      rw [hminL, List.take_succ_cons, List.drop_succ_cons]
      simp only [xorStream, rbInsertMany_cons]
      rcases le_or_lt s.header.payload_rem (r'.length + 1 + 1) with hle | hlt
      · have hle2 : s.header.payload_rem - 1 ≤ r'.length + 1 := by omega
        rw [if_pos hle, if_pos hle2]
        have e1 : ¬ (r'.length + 1 + 1 < s.header.payload_rem) := by omega
        have e2 : ¬ (r'.length + 1 < s.header.payload_rem - 1) := by omega
        simp [e1, e2]
      · have hlt1 : ¬ (s.header.payload_rem ≤ r'.length + 1 + 1) := by omega
        have hlt2 : ¬ (s.header.payload_rem - 1 ≤ r'.length + 1) := by omega
        rw [if_neg hlt1, if_neg hlt2]
        have e1 : r'.length + 1 + 1 < s.header.payload_rem := by omega
        have e2 : r'.length + 1 < s.header.payload_rem - 1 := by omega
        have e3 : min (s.header.payload_rem - 1) (r'.length + 1) = r'.length + 1 := by omega
        simp [e1, e2, e3]
        omega

/-! ### Generic length and fuel lemmas for the driver -/

theorem collectHeader_len_le :
    ∀ (input : List Nat) (h : FrameHeader), (collectHeader h input).2.length ≤ input.length
  | [], h => by simp [collectHeader]
  | b :: r, h => by
      rw [collectHeader]
      split
      · simp
      · have := collectHeader_len_le r (hdrStep h b)
        simp
        omega

theorem insertLoop_len_le (f : Nat → Nat) :
    ∀ (k : Nat) (input : List Nat) (s : Session) (i : Nat),
    (insertLoop f s i k input).2.2.length ≤ input.length
  | 0, input, s, i => by simp [insertLoop]
  | _ + 1, [], s, i => by simp [insertLoop]
  | k + 1, b :: rest, s, i => by
      rw [insertLoop]
      split
      · have := insertLoop_len_le f k rest (WsStreamRxInsert s (b ^^^ f (i % 4))).1 (i + 1)
        simp
        omega
      · simp

theorem textBody_len_le (s : Session) (t : Nat) (rest1 : List Nat) :
    (textBody s t rest1).2.1.length ≤ rest1.length := by
  simp only [textBody]
  split
  · exact insertLoop_len_le _ _ _ _ _
  · exact le_refl _

theorem textProcess_len_le (s : Session) (t : Nat) (fin : Bool) (rest1 : List Nat) :
    (textProcess s t fin rest1).2.1.length ≤ rest1.length := by
  simp only [textProcess]
  exact textBody_len_le _ _ _

theorem closeProcess_len_le (s : Session) (rest1 : List Nat) :
    (closeProcess s rest1).2.1.length ≤ rest1.length := by
  simp only [closeProcess]
  split
  · simp
  · simp

theorem pingProcess_len_le (s : Session) (t : Nat) (rest1 : List Nat) :
    (pingProcess s t rest1).2.1.length ≤ rest1.length := by
  simp only [pingProcess]
  split
  · split
    · split
      · simp
      · cases rest1 <;> simp
    · exact le_refl _
  · simp

theorem pongProcess_len_le (s : Session) (rest1 : List Nat) :
    (pongProcess s rest1).2.1.length ≤ rest1.length := by
  simp only [pongProcess]
  split
  · simp
  · simp

theorem dfltProcess_len_le (s : Session) (rest1 : List Nat) :
    (dfltProcess s rest1).2.1.length ≤ rest1.length := by
  simp only [dfltProcess]
  split
  · simp
  · simp

theorem wsDispatch_len_le (s2 : Session) (t : Nat) (fin : Bool) (op : Nat)
    (rest1 : List Nat) : (wsDispatch s2 t fin op rest1).2.1.length ≤ rest1.length := by
  simp only [wsDispatch]
  split
  · simp
  · split
    · exact textProcess_len_le _ _ _ _
    · split
      · exact closeProcess_len_le _ _
      · split
        · exact pingProcess_len_le _ _ _
        · split
          · exact pongProcess_len_le _ _
          · exact dfltProcess_len_le _ _

theorem wsEpilogue_len (r : Session × List Nat × Bool) :
    (wsEpilogue r).2.length = r.2.1.length := by
  simp only [wsEpilogue]
  split <;> rfl

theorem wsParse_len_le (s : Session) (input : List Nat) :
    (wsParse s input).2.length ≤ input.length := by
  have hcl := collectHeader_len_le input s.header
  simp only [wsParse]
  split
  · rw [wsEpilogue_len]
    exact le_trans (wsDispatch_len_le _ _ _ _ _) hcl
  · exact hcl

theorem wsFeedAux_fuel :
    ∀ (n : Nat) (input : List Nat) (f1 f2 : Nat) (s : Session), input.length = n →
    n < f1 → n < f2 → wsFeedAux f1 s input = wsFeedAux f2 s input := by
  intro n
  induction n using Nat.strong_induction_on with
  | _ n ih =>
    intro input f1 f2 s hn h1 h2
    match input, f1, f2 with
    | [], k1 + 1, k2 + 1 => rfl
    | b :: r, k1 + 1, k2 + 1 =>
        simp only [wsFeedAux]
        have hle := wsParse_len_le s (b :: r)
        split
        case isTrue hlt =>
          exact ih (wsParse s (b :: r)).2.length (by omega) _ _ _ _ rfl (by omega) (by omega)
        case isFalse hlt =>
          rfl

/-! ### Frame byte-stream structure -/

theorem xorStream_length (f : Nat → Nat) :
    ∀ (i : Nat) (l : List Nat), (xorStream f i l).length = l.length
  | _, [] => rfl
  | i, b :: r => by simp [xorStream, xorStream_length f (i + 1) r]

theorem ClientFrame.hdrBytes_length (F : ClientFrame) : F.hdrBytes.length = F.hdrLen := by
  simp only [ClientFrame.hdrBytes, ClientFrame.hdrLen]
  split <;> rfl

theorem ClientFrame.bytes_length (F : ClientFrame) :
    F.bytes.length = F.hdrLen + F.payload.length := by
  simp [ClientFrame.bytes, F.hdrBytes_length, xorStream_length]

theorem ClientFrame.hdrLen_pos (F : ClientFrame) : 6 ≤ F.hdrLen := by
  simp only [ClientFrame.hdrLen]
  split <;> omega

theorem ClientFrame.hdrLen_le (F : ClientFrame) : F.hdrLen ≤ 8 := by
  simp only [ClientFrame.hdrLen]
  split <;> omega

theorem take_succ_getD :
    ∀ (bs : List Nat) (j : Nat), j < bs.length → bs.take (j + 1) = bs.take j ++ [bs.getD j 0]
  | b :: bs, 0, _ => by simp
  | b :: bs, j + 1, h => by
      simp only [List.take_succ_cons, List.getD_cons_succ]
      rw [take_succ_getD bs j (by simpa using h)]
      simp

theorem hdrIter_succ (bs : List Nat) (j : Nat) (hj : j < bs.length) :
    hdrIter (bs.take (j + 1)) = hdrStep (hdrIter (bs.take j)) (bs.getD j 0) := by
  rw [take_succ_getD bs j hj]
  simp [hdrIter, List.foldl_append]

theorem ClientFrame.bytes_take_hdr (F : ClientFrame) (j : Nat) (hj : j ≤ F.hdrLen) :
    F.bytes.take j = F.hdrBytes.take j := by
  simp only [ClientFrame.bytes]
  exact List.take_append_of_le_length (by rw [F.hdrBytes_length]; omega)

theorem hdrIter_incomplete (F : ClientFrame) (j : Nat) (hj : j < F.hdrLen) :
    (hdrIter (F.bytes.take j)).complete = false := by
  rw [F.bytes_take_hdr j (by omega)]
  by_cases h126 : F.payload.length < 126
  · have hlen6 : F.hdrLen = 6 := by simp [ClientFrame.hdrLen, h126]
    have hlen : (F.hdrBytes.take j).length = j := by
      rw [List.length_take, F.hdrBytes_length]
      omega
    exact (foldl_hdrStep_incomplete (F.hdrBytes.take j) FrameHeader.empty rfl
      (by rw [hlen]; simp [FrameHeader.empty]; omega)).1
  · rcases Nat.lt_or_ge j 6 with h6 | h6
    · have hlen : (F.hdrBytes.take j).length = j := by
        rw [List.length_take, F.hdrBytes_length]
        have := F.hdrLen_pos
        omega
      exact (foldl_hdrStep_incomplete (F.hdrBytes.take j) FrameHeader.empty rfl
        (by rw [hlen]; simp [FrameHeader.empty]; omega)).1
    · have hlen8 : F.hdrLen = 8 := by simp [ClientFrame.hdrLen, h126]
      have hj8 : j = 6 ∨ j = 7 := by omega
      rcases hj8 with rfl | rfl
      · exact (hdrIter_escape_6 F h126).1
      · exact (hdrIter_escape_7 F h126).1

theorem hdrIter_full (F : ClientFrame) :
    hdrIter (F.bytes.take F.hdrLen) = postHdr F := by
  rw [F.bytes_take_hdr F.hdrLen (le_refl _), postHdr]
  congr 1
  rw [← F.hdrBytes_length]
  exact List.take_length _

/-- Decoded-header facts, both header variants. -/
theorem postHdr_facts (F : ClientFrame) :
    (postHdr F).complete = true ∧ (postHdr F).payload_len = F.payload.length ∧
    (postHdr F).payload_rem = F.payload.length ∧ (postHdr F).rx_index = 0 ∧
    (postHdr F).idx = F.hdrLen ∧ (postHdr F).frame = none ∧
    (postHdr F).data 0 = F.b0 ∧ ∀ j, j < 4 → (postHdr F).mask j = F.mask j := by
  by_cases h126 : F.payload.length < 126
  · have h := postHdr_spec6 F h126
    simp only [ClientFrame.hdrLen, if_pos h126]
    exact h
  · have h := postHdr_spec8 F h126
    simp only [ClientFrame.hdrLen, if_neg h126]
    exact h

theorem tokOpcode_b0 (F : ClientFrame) (hop : F.op < 16) : tokOpcode F.b0 = F.op := by
  simp only [tokOpcode, ClientFrame.b0]
  cases F.fin
  · simp [and_15_of_lt hop]
  · simp [and_15_carry hop]

/-! ### Valid-stream configurations -/

theorem drop_cons_getD :
    ∀ (bs : List Nat) (j : Nat), j < bs.length →
      bs.drop j = bs.getD j 0 :: bs.drop (j + 1)
  | b :: bs, 0, _ => by simp
  | b :: bs, j + 1, h => by
      simp only [List.drop_succ_cons, List.getD_cons_succ]
      exact drop_cons_getD bs j (by simpa using h)

theorem FrameHeader.update_self (h : FrameHeader) {a b : Nat}
    (ha : h.rx_index = a) (hb : h.payload_rem = b) :
    ({ h with rx_index := a, payload_rem := b } : FrameHeader) = h := by
  cases h
  simp_all

theorem stepByte_text_done (s : Session) (b : Nat)
    (hst : s.state = WsState.Connected)
    (hcomp : s.header.complete = true)
    (hop : tokOpcode (s.header.data 0) = 1 ∨ tokOpcode (s.header.data 0) = 2)
    (hremeq : s.header.payload_rem = s.header.payload_len - s.header.rx_index)
    (hrem1 : s.header.payload_rem = 1)
    (hw : RWF s.rxbuf)
    (hbud : rxbufCount s.rxbuf + 1 ≤ RX_BUFFER_SIZE - 1) :
    stepByte s b =
      { s with
          fragment_opcode := if tokFin (s.header.data 0) then 0
            else tokOpcode (s.header.data 0),
          start_token := 0xFF,
          rxbuf := rbInsert s.rxbuf (b ^^^ s.header.mask (s.header.rx_index % 4)),
          header := FrameHeader.empty } := by
  unfold stepByte
  rw [wsParse_text s [b] (by simp) hst hcomp hop hremeq (by omega) hw (by simpa using hbud)]
  rw [if_pos (by simp; omega)]
  have hmin : min s.header.payload_rem [b].length = 1 := by simp; omega
  simp only [hmin]
  have hst1 : ¬ ((1 : Nat) < s.header.payload_rem) := by omega
  simp [hst1, xorStream, rbInsertMany]

/-- Single-byte advance on a valid stream: the parser either continues in
the same call or finishes the current frame exactly at this byte, and the
stepped session is again a valid configuration. -/
theorem conf_step (s : Session) (b : Nat) (r rest2 : List Nat)
    (hc : Conf s ((b :: r) ++ rest2)) (hw : RWF s.rxbuf)
    (hbud : rxbufCount s.rxbuf + (b :: r).length ≤ RX_BUFFER_SIZE - 1) :
    (wsParse s (b :: r) = wsParse (stepByte s b) r ∨
      wsParse s (b :: r) = (stepByte s b, r)) ∧
    Conf (stepByte s b) (r ++ rest2) ∧ RWF (stepByte s b).rxbuf ∧
    rxbufCount (stepByte s b).rxbuf ≤ rxbufCount s.rxbuf + 1 := by
  obtain ⟨hst, hcase⟩ := hc
  have hbud1 : rxbufCount s.rxbuf + 1 ≤ RX_BUFFER_SIZE - 1 := by simp at hbud; omega
  rcases hcase with ⟨hhdr, Fs, hok, heq⟩ | ⟨F, j, Fs, hFok, hok, hjpos, hjlt, hat, heq⟩
  · -- clean state: the input starts a fresh frame
    cases Fs with
    | nil => simp [streamBytes] at heq
    | cons F Fs' =>
        have hFok : F.Ok := hok F (by simp)
        have hok' : OkStream Fs' := fun G hG => hok G (by simp [hG])
        have hblen : F.bytes.length = F.hdrLen + F.payload.length := F.bytes_length
        have hlen6 := F.hdrLen_pos
        have hppos : 0 < F.payload.length := hFok.2.1
        have hstream : streamBytes (F :: Fs') = F.bytes ++ streamBytes Fs' := by
          simp [streamBytes]
        rw [hstream] at heq
        have hb0 : F.bytes.getD 0 0 = b ∧ r ++ rest2 = F.bytes.drop 1 ++ streamBytes Fs' := by
          have hd := drop_cons_getD F.bytes 0 (by omega)
          simp only [List.drop_zero] at hd
          rw [hd] at heq
          simp only [List.cons_append, List.cons.injEq] at heq
          exact ⟨heq.1.symm, heq.2⟩
        have hnc : s.header.complete = false := by rw [hhdr]; rfl
        have hstep1 : hdrStep s.header b = hdrIter (F.bytes.take 1) := by
          rw [hdrIter_succ F.bytes 0 (by omega), hb0.1, hhdr]
          rfl
        have hinc1 : (hdrIter (F.bytes.take 1)).complete = false :=
          hdrIter_incomplete F 1 (by omega)
        have hsb : stepByte s b = { s with header := hdrIter (F.bytes.take 1) } := by
          rw [stepByte_hdr s b hnc (by rw [hstep1]; simp [hinc1]), hstep1]
        refine ⟨Or.inl ?_, ⟨by simp [hsb, hst], Or.inr ⟨F, 1, Fs', hFok, hok', by omega,
          by omega, ?_, ?_⟩⟩, ?_, ?_⟩
        · rw [wsParse_hdr s b r hnc, hsb, hstep1]
        · simp only [ConfAt, if_pos (show 1 < F.hdrLen by omega), hsb]
        · exact hb0.2
        · simpa [hsb] using hw
        · simp [hsb]
  · -- mid-frame
    have hblen : F.bytes.length = F.hdrLen + F.payload.length := F.bytes_length
    have hlen6 := F.hdrLen_pos
    have hppos : 0 < F.payload.length := hFok.2.1
    have hb : F.bytes.getD j 0 = b ∧ r ++ rest2 = F.bytes.drop (j + 1) ++ streamBytes Fs := by
      rw [drop_cons_getD F.bytes j hjlt] at heq
      simp only [List.cons_append, List.cons.injEq] at heq
      exact ⟨heq.1.symm, heq.2⟩
    rcases Nat.lt_or_ge j F.hdrLen with hjh | hjp
    · -- header phase
      have hhd : s.header = hdrIter (F.bytes.take j) := by
        simpa [ConfAt, hjh] using hat
      have hnc : s.header.complete = false := by
        rw [hhd]
        exact hdrIter_incomplete F j hjh
      have hstep1 : hdrStep s.header b = hdrIter (F.bytes.take (j + 1)) := by
        rw [hdrIter_succ F.bytes j hjlt, hb.1, hhd]
      have hf := postHdr_facts F
      have hside : ¬ ((hdrStep s.header b).complete = true ∧
          (hdrStep s.header b).payload_rem = 0) := by
        rw [hstep1]
        rcases Nat.lt_or_ge (j + 1) F.hdrLen with hlt | hge
        · simp [hdrIter_incomplete F (j + 1) hlt]
        · have hj1 : j + 1 = F.hdrLen := by omega
          rw [hj1, hdrIter_full]
          rw [hf.2.2.1]
          rintro ⟨-, hzero⟩
          omega
      have hsb : stepByte s b = { s with header := hdrIter (F.bytes.take (j + 1)) } := by
        rw [stepByte_hdr s b hnc hside, hstep1]
      refine ⟨Or.inl ?_, ⟨by simp [hsb, hst], Or.inr ⟨F, j + 1, Fs, hFok, hok, by omega,
        by omega, ?_, hb.2⟩⟩, by simpa [hsb] using hw, by simp [hsb]⟩
      · rw [wsParse_hdr s b r hnc, hsb, hstep1]
      · rcases Nat.lt_or_ge (j + 1) F.hdrLen with hlt | hge
        · simp only [ConfAt, if_pos hlt, hsb]
        · have hj1 : j + 1 = F.hdrLen := by omega
          simp only [ConfAt, if_neg (by omega : ¬ (j + 1 < F.hdrLen)), hsb]
          rw [hj1, hdrIter_full]
          exact (FrameHeader.update_self (postHdr F) (by rw [hf.2.2.2.1]; omega)
            (by rw [hf.2.2.1]; omega)).symm
    · -- payload phase
      have hplt : j - F.hdrLen < F.payload.length := by omega
      have hhd : s.header = { postHdr F with
          rx_index := j - F.hdrLen,
          payload_rem := F.payload.length - (j - F.hdrLen) } := by
        simpa [ConfAt, Nat.not_lt.mpr hjp] using hat
      have hf := postHdr_facts F
      have hcomp : s.header.complete = true := by
        rw [hhd]
        simpa using hf.1
      have hdata0 : s.header.data 0 = F.b0 := by
        rw [hhd]
        simpa using hf.2.2.2.2.2.2.1
      have hoplt : F.op < 16 := by rcases hFok.1 with h | h <;> omega
      have hop : tokOpcode (s.header.data 0) = 1 ∨ tokOpcode (s.header.data 0) = 2 := by
        rw [hdata0, tokOpcode_b0 F hoplt]
        exact hFok.1
      have hlenfld : s.header.payload_len = F.payload.length := by
        rw [hhd]
        simpa using hf.2.1
      have hrxfld : s.header.rx_index = j - F.hdrLen := by rw [hhd]
      have hremfld : s.header.payload_rem = F.payload.length - (j - F.hdrLen) := by rw [hhd]
      have hremeq : s.header.payload_rem = s.header.payload_len - s.header.rx_index := by
        rw [hlenfld, hrxfld, hremfld]
      have hrem : 0 < s.header.payload_rem := by rw [hremfld]; omega
      by_cases hlast : F.payload.length - (j - F.hdrLen) = 1
      · -- this byte finishes the frame
        have hrem1 : s.header.payload_rem = 1 := by rw [hremfld, hlast]
        have hd := step_text_done s b r hst hcomp hop hremeq hrem1 hw hbud
        have hsb := stepByte_text_done s b hst hcomp hop hremeq hrem1 hw hbud1
        have hdropall : F.bytes.drop (j + 1) = [] := by
          apply List.drop_eq_nil_of_le
          omega
        have hins := rbInsert_spec s.rxbuf (b ^^^ s.header.mask (s.header.rx_index % 4)) hw
          (by omega)
        refine ⟨Or.inr hd.1, ⟨by simp [hsb, hst], Or.inl ⟨by simp [hsb], Fs, hok, ?_⟩⟩,
          by simpa [hsb] using hins.1, by simp [hsb, hins.2.1]⟩
        rw [hb.2, hdropall]
        simp
      · -- mid-payload byte
        have hrem2 : 2 ≤ s.header.payload_rem := by rw [hremfld]; omega
        have hmid := step_text_mid s b r hst hcomp hop hremeq hrem2 hw hbud
        have hsb := stepByte_text_mid s b hst hcomp hop hremeq hrem2 hw hbud1
        have hins := rbInsert_spec s.rxbuf (b ^^^ s.header.mask (s.header.rx_index % 4)) hw
          (by omega)
        rw [hsb] at hmid ⊢
        refine ⟨Or.inl hmid, ⟨by simp [textStep1, hst], Or.inr ⟨F, j + 1, Fs, hFok, hok,
          by omega, by omega, ?_, hb.2⟩⟩, by simpa [textStep1] using hins.1,
          by simp [textStep1, hins.2.1]⟩
        simp only [ConfAt, if_neg (by omega : ¬ (j + 1 < F.hdrLen))]
        show (textStep1 s b).header = _
        simp only [textStep1]
        rw [hhd]
        have hcollapse : ∀ (hh : FrameHeader) (a c e d : Nat),
            ({ ({ hh with rx_index := a, payload_rem := c } : FrameHeader) with
                rx_index := e, payload_rem := d } : FrameHeader)
              = { hh with rx_index := e, payload_rem := d } := fun hh a c e d => rfl
        simp only [hcollapse]
        congr 1
        · omega
        · omega

theorem conf_nowedge (s : Session) (x : List Nat) (hc : Conf s x) :
    ¬ (s.header.complete = true ∧ s.header.payload_rem = 0) := by
  obtain ⟨-, hcase⟩ := hc
  rcases hcase with ⟨hhdr, -⟩ | ⟨F, j, Fs, hFok, -, -, hjlt, hat, -⟩
  · rw [hhdr]
    rintro ⟨h, -⟩
    simp [FrameHeader.empty] at h
  · have hblen : F.bytes.length = F.hdrLen + F.payload.length := F.bytes_length
    rcases Nat.lt_or_ge j F.hdrLen with hjh | hjp
    · have hhd : s.header = hdrIter (F.bytes.take j) := by simpa [ConfAt, hjh] using hat
      rw [hhd]
      rintro ⟨h, -⟩
      rw [hdrIter_incomplete F j hjh] at h
      exact Bool.false_ne_true h
    · have hhd : s.header = { postHdr F with
          rx_index := j - F.hdrLen,
          payload_rem := F.payload.length - (j - F.hdrLen) } := by
        simpa [ConfAt, Nat.not_lt.mpr hjp] using hat
      rw [hhd]
      rintro ⟨-, h⟩
      simp at h
      omega

theorem feed_norm :
    ∀ (n : Nat) (input tail : List Nat) (s : Session), input.length = n →
    Conf s (input ++ tail) → RWF s.rxbuf →
    rxbufCount s.rxbuf + n ≤ RX_BUFFER_SIZE - 1 →
    wsFeedAux (n + 1) s input = (input.foldl stepByte s, []) ∧
    Conf (input.foldl stepByte s) tail ∧
    RWF (input.foldl stepByte s).rxbuf ∧
    rxbufCount (input.foldl stepByte s).rxbuf ≤ rxbufCount s.rxbuf + n := by
  intro n
  induction n using Nat.strong_induction_on with
  | _ n ih =>
    intro input tail s hn hc hw hbud
    cases input with
    | nil =>
        subst hn
        exact ⟨rfl, by simpa using hc, hw, by simp⟩
    | cons b r =>
        have hcs := conf_step s b r tail hc hw (by simp at hn ⊢; omega)
        obtain ⟨hdich, hconf2, hw2, hcnt2⟩ := hcs
        have hnr : r.length < n := by simp at hn; omega
        have ihr := ih r.length hnr r tail (stepByte s b) rfl hconf2 hw2 (by omega)
        have hfoldl : (b :: r).foldl stepByte s = r.foldl stepByte (stepByte s b) := rfl
        have hgoal2 : Conf ((b :: r).foldl stepByte s) tail := by
          rw [hfoldl]
          exact ihr.2.1
        have hgoal3 : RWF ((b :: r).foldl stepByte s).rxbuf := by
          rw [hfoldl]
          exact ihr.2.2.1
        have hgoal4 : rxbufCount ((b :: r).foldl stepByte s).rxbuf
            ≤ rxbufCount s.rxbuf + n := by
          rw [hfoldl]
          have := ihr.2.2.2
          omega
        refine ⟨?_, hgoal2, hgoal3, hgoal4⟩
        simp only [wsFeedAux]
        rcases hdich with hcont | hdone
        · cases r with
          | nil =>
              have hnil : wsParse (stepByte s b) [] = (stepByte s b, []) :=
                wsParse_nil _ (conf_nowedge _ _ (by simpa using hconf2))
              have hone : wsParse s [b] = (stepByte s b, []) := by rw [hcont, hnil]
              rw [hone]
              rw [if_pos (by simp)]
              have hn1 : n = 1 := by simpa using hn.symm
              subst hn1
              rfl
          | cons c r' =>
              rw [hcont]
              have hle := wsParse_len_le (stepByte s b) (c :: r')
              rw [if_pos (by simp at hle hn ⊢; omega)]
              have hstep1 := ihr.1
              simp only [wsFeedAux] at hstep1
              by_cases hprog :
                  (wsParse (stepByte s b) (c :: r')).2.length < (c :: r').length
              · rw [if_pos hprog] at hstep1
                rw [hfoldl, ← hstep1]
                refine wsFeedAux_fuel (wsParse (stepByte s b) (c :: r')).2.length
                  (wsParse (stepByte s b) (c :: r')).2 n ((c :: r').length)
                  (wsParse (stepByte s b) (c :: r')).1 rfl ?_ hprog
                simp only [List.length_cons] at hle hn ⊢
                omega
              · rw [if_neg hprog] at hstep1
                have hlen0 := congrArg (fun p => p.2.length) hstep1
                simp only [List.length_nil] at hlen0
                refine absurd ?_ hprog
                rw [hlen0]
                simp

        · rw [hdone]
          rw [if_pos (by simp)]
          rw [hfoldl]
          have hnn : n = r.length + 1 := by simp at hn; omega
          rw [hnn]
          exact ihr.1

theorem feedChunks_norm :
    ∀ (cs : List (List Nat)) (tail : List Nat) (s : Session),
    Conf s (cs.flatten ++ tail) → RWF s.rxbuf →
    rxbufCount s.rxbuf + cs.flatten.length ≤ RX_BUFFER_SIZE - 1 →
    feedChunks s cs = cs.flatten.foldl stepByte s ∧
    Conf (cs.flatten.foldl stepByte s) tail ∧
    RWF (cs.flatten.foldl stepByte s).rxbuf ∧
    rxbufCount (cs.flatten.foldl stepByte s).rxbuf
      ≤ rxbufCount s.rxbuf + cs.flatten.length := by
  intro cs
  induction cs with
  | nil =>
      intro tail s hc hw hb
      exact ⟨rfl, by simpa using hc, hw, by simp⟩
  | cons c cs' ih =>
      intro tail s hc hw hb
      have hc1 : Conf s (c ++ (cs'.flatten ++ tail)) := by
        simpa [List.flatten_cons, List.append_assoc] using hc
      have hble : c.length + cs'.flatten.length = (c :: cs').flatten.length := by
        simp
      have hb1 : rxbufCount s.rxbuf + c.length ≤ RX_BUFFER_SIZE - 1 := by
        omega
      have hf := feed_norm c.length c (cs'.flatten ++ tail) s rfl hc1 hw hb1
      have hws : (wsFeed s c).1 = c.foldl stepByte s := by
        show (wsFeedAux (c.length + 1) s c).1 = _
        rw [hf.1]
      have hb2 : rxbufCount (c.foldl stepByte s).rxbuf + cs'.flatten.length
          ≤ RX_BUFFER_SIZE - 1 := by
        have := hf.2.2.2
        omega
      have hih := ih tail (c.foldl stepByte s) hf.2.1 hf.2.2.1 hb2
      have hfeed : feedChunks s (c :: cs') = feedChunks (c.foldl stepByte s) cs' := by
        show feedChunks (wsFeed s c).1 cs' = _
        rw [hws]
      have hfold : (c :: cs').flatten.foldl stepByte s
          = cs'.flatten.foldl stepByte (c.foldl stepByte s) := by
        rw [List.flatten_cons, List.foldl_append]
      refine ⟨?_, ?_, ?_, ?_⟩
      · rw [hfeed, hfold]
        exact hih.1
      · rw [hfold]
        exact hih.2.1
      · rw [hfold]
        exact hih.2.2.1
      · rw [hfold]
        have := hih.2.2.2
        omega

/-- C1: the original claim fails — a Close frame fed whole versus split
mid-payload produces different response traces for the same byte sequence. -/
theorem C1_counterexample :
    ([[0x88, 0x82, 0, 0, 0, 0, 11], [22]] : List (List Nat)).flatten =
      ([[0x88, 0x82, 0, 0, 0, 0, 11, 22]] : List (List Nat)).flatten ∧
    (feedChunks initSession [[0x88, 0x82, 0, 0, 0, 0, 11], [22]]).out ≠
      (feedChunks initSession [[0x88, 0x82, 0, 0, 0, 0, 11, 22]]).out := by
  constructor
  · decide
  · decide

/-- C1 (amended): chunk-boundary invariance holds for streams of
well-formed unfragmented text/binary data frames whose total length fits
the inbound ring: any two chunkings of the same byte stream drive the
session to the same final state (ring contents, responses and all). -/
theorem C1_chunk_invariance (Fs : List ClientFrame) (cs ds : List (List Nat))
    (hok : OkStream Fs)
    (hcs : cs.flatten = streamBytes Fs) (hds : ds.flatten = streamBytes Fs)
    (hlen : (streamBytes Fs).length ≤ RX_BUFFER_SIZE - 1) :
    feedChunks initSession cs = feedChunks initSession ds := by
  have hci : Conf initSession (streamBytes Fs ++ []) := by
    refine ⟨rfl, Or.inl ⟨rfl, Fs, hok, by simp⟩⟩
  have hw : RWF initSession.rxbuf := by
    refine ⟨?_, ?_, rfl⟩ <;> decide
  have hcnt : rxbufCount initSession.rxbuf = 0 := by decide
  have h1 := feedChunks_norm cs [] initSession
    (by rw [hcs]; exact hci) hw (by rw [hcs, hcnt]; omega)
  have h2 := feedChunks_norm ds [] initSession
    (by rw [hds]; exact hci) hw (by rw [hds, hcnt]; omega)
  rw [h1.1, h2.1, hcs, hds]

theorem C1_chunk_invariance_witness :
    feedChunks initSession [[129, 129, 0, 0, 0, 0, 97]] =
      feedChunks initSession [[129, 129, 0], [0, 0, 0, 97]] :=
  C1_chunk_invariance [⟨true, 1, fun _ => 0, [97]⟩] _ _
    (by
      intro G hG
      simp at hG
      subst hG
      exact ⟨Or.inl rfl, by simp, by simp, fun j hj => rfl⟩)
    (by decide) (by decide) (by decide)

/-- C5: a zero-length text frame never sets `frame_done` — after its header
completes the header is left complete with `payload_rem = 0`, and the next
`WsParse` call consumes none of a following well-formed frame (the parser is
wedged, not ready for a new frame header). -/
theorem C5_zero_length_frame_wedges :
    (wsParse initSession [0x81, 0x80, 0, 0, 0, 0]).2 = [] ∧
    (wsParse initSession [0x81, 0x80, 0, 0, 0, 0]).1.header.complete = true ∧
    (wsParse (wsParse initSession [0x81, 0x80, 0, 0, 0, 0]).1
        [0x81, 0x81, 0, 0, 0, 0, 97]).2 = [0x81, 0x81, 0, 0, 0, 0, 97] ∧
    (wsParse (wsParse initSession [0x81, 0x80, 0, 0, 0, 0]).1
        [0x81, 0x81, 0, 0, 0, 0, 97]).1.header.complete = true ∧
    rxbufCount (wsParse (wsParse initSession [0x81, 0x80, 0, 0, 0, 0]).1
        [0x81, 0x81, 0, 0, 0, 0, 97]).1.rxbuf = 0 := by
  refine ⟨by decide, by decide, by decide, by decide, by decide⟩

/-- C6: on a fully collected Close frame the session does transition to
`Closing`, but the bytes written back are the bare payload with no Close
frame header (`tcp_write(payload, payload_len)`), and when the payload was
reassembled across chunks the bytes written are the raw header bytes, not
the payload. -/
theorem C6_close_echo_not_a_close_frame :
    (wsParse initSession [0x88, 0x82, 0, 0, 0, 0, 11, 22]).1.state =
      WsState.Closing ∧
    (wsParse initSession [0x88, 0x82, 0, 0, 0, 0, 11, 22]).1.out = [[11, 22]] ∧
    (feedChunks initSession [[0x88, 0x82, 0, 0, 0, 0, 11], [22]]).out =
      [[0x88, 0x82]] ∧
    (feedChunks initSession [[0x88, 0x82, 0, 0, 0, 0, 11], [22]]).state =
      WsState.Closing := by
  refine ⟨by decide, by decide, by decide, by decide⟩

/-- C7: the Ping response is sent immediately and is suppressed when the
session is `Closing`, but the bytes written are not a Pong frame with the
Ping's payload: the Pong token `0x8A` overwrites the first payload byte and
no frame header is emitted (`tcp_write(payload, payload_len)` after
`payload[0] = fs.token`). -/
theorem C7_ping_response_corrupts_payload :
    (wsParse initSession [0x89, 0x82, 0, 0, 0, 0, 72, 105]).1.out =
      [[0x8A, 105]] ∧
    (wsParse { initSession with state := WsState.Closing }
        [0x89, 0x82, 0, 0, 0, 0, 72, 105]).1.out = [] := by
  refine ⟨by decide, by decide⟩

/-- C9: the teardown is not idempotent: `header.frame` is freed without
being cleared, so a second `streamFreeBuffers` call frees the reassembly
frame buffer again (the pbuf chain and http-request buffer, whose pointers
are cleared, are correctly freed only once). -/
theorem C9_teardown_double_frees_frame_buffer :
    (streamFreeBuffers { initSession with
        header := { FrameHeader.empty with frame := some #[1, 2] },
        http_request := some 7, pbufHead := true }).2 =
      [Freed.pbufChain, Freed.httpRequest, Freed.frameBuf] ∧
    (streamFreeBuffers (streamFreeBuffers { initSession with
        header := { FrameHeader.empty with frame := some #[1, 2] },
        http_request := some 7, pbufHead := true }).1).2 =
      [Freed.frameBuf] := by
  refine ⟨by decide, by decide⟩

theorem wsParse_pong_nil (s : Session) (hc : s.header.complete = true)
    (hop : tokOpcode (s.header.data 0) = 10) (hf : tokFin (s.header.data 0) = true)
    (hr : s.header.payload_rem = 0) :
    (wsParse s []).1.pingCount = 0 := by
  simp only [wsParse, collectHeader]
  split
  · rw [hop, hf]
    simp [wsDispatch, pongProcess, wsEpilogue, hr]
  · next hcond => exact absurd ⟨hc, Or.inr hr⟩ hcond

set_option maxHeartbeats 1600000 in
theorem pong_resets (s : Session) (h : s.header = FrameHeader.empty) :
    (wsParse s [138, 128, 0, 0, 0, 0]).1.pingCount = 0 := by
  have e0 : s.header.complete = false := by rw [h]; rfl
  have d1 : (hdrStep FrameHeader.empty 138).complete = false := by decide
  have d2 : (hdrStep (hdrStep FrameHeader.empty 138) 128).complete = false := by decide
  have d3 : (hdrStep (hdrStep (hdrStep FrameHeader.empty 138) 128) 0).complete = false := by decide
  have d4 : (hdrStep (hdrStep (hdrStep (hdrStep FrameHeader.empty 138) 128) 0) 0).complete = false := by decide
  have d5 : (hdrStep (hdrStep (hdrStep (hdrStep (hdrStep FrameHeader.empty 138) 128) 0) 0) 0).complete = false := by decide
  have c1 : (hdrStep (hdrStep (hdrStep (hdrStep (hdrStep (hdrStep FrameHeader.empty 138) 128) 0) 0) 0) 0).complete = true := by decide
  have c2 : tokOpcode ((hdrStep (hdrStep (hdrStep (hdrStep (hdrStep (hdrStep FrameHeader.empty 138) 128) 0) 0) 0) 0).data 0) = 10 := by decide
  have c3 : tokFin ((hdrStep (hdrStep (hdrStep (hdrStep (hdrStep (hdrStep FrameHeader.empty 138) 128) 0) 0) 0) 0).data 0) = true := by decide
  have c4 : (hdrStep (hdrStep (hdrStep (hdrStep (hdrStep (hdrStep FrameHeader.empty 138) 128) 0) 0) 0) 0).payload_rem = 0 := by decide
  rw [wsParse_hdr _ _ _ e0, h]
  rw [wsParse_hdr { s with header := hdrStep FrameHeader.empty 138 } 128 _ d1]
  show (wsParse { s with header := hdrStep (hdrStep FrameHeader.empty 138) 128 } [0, 0, 0, 0]).1.pingCount = 0
  rw [wsParse_hdr { s with header := hdrStep (hdrStep FrameHeader.empty 138) 128 } 0 _ d2]
  show (wsParse { s with header := hdrStep (hdrStep (hdrStep FrameHeader.empty 138) 128) 0 } [0, 0, 0]).1.pingCount = 0
  rw [wsParse_hdr { s with header := hdrStep (hdrStep (hdrStep FrameHeader.empty 138) 128) 0 } 0 _ d3]
  show (wsParse { s with header := hdrStep (hdrStep (hdrStep (hdrStep FrameHeader.empty 138) 128) 0) 0 } [0, 0]).1.pingCount = 0
  rw [wsParse_hdr { s with header := hdrStep (hdrStep (hdrStep (hdrStep FrameHeader.empty 138) 128) 0) 0 } 0 _ d4]
  show (wsParse { s with header := hdrStep (hdrStep (hdrStep (hdrStep (hdrStep FrameHeader.empty 138) 128) 0) 0) 0 } [0]).1.pingCount = 0
  rw [wsParse_hdr { s with header := hdrStep (hdrStep (hdrStep (hdrStep (hdrStep FrameHeader.empty 138) 128) 0) 0) 0 } 0 _ d5]
  exact wsParse_pong_nil { s with header := hdrStep (hdrStep (hdrStep (hdrStep (hdrStep (hdrStep FrameHeader.empty 138) 128) 0) 0) 0) 0 } c1 c2 c3 c4

/-- C8: while connected and outbound-idle past the 3-tick-rate interval the
handler sends a `"Hi"` ping and bumps the unanswered-ping counter; once the
counter exceeds 3 (four unanswered pings) the session is forced to
`Closing`; and a parsed complete Pong frame resets the counter to 0. -/
theorem C8_ping_liveness (now sndbuf hz k : Nat) (s : Session)
    (hconn : s.state = WsState.Connected) :
    (s.pingCount ≤ 3 → now - s.lastSendTime > 3 * hz → sndbuf > 4 →
      wsPingCheck now sndbuf hz s =
        { s with out := s.out ++ [[0x89, 2, 72, 105]],
                 lastSendTime := now, pingCount := s.pingCount + 1 }) ∧
    (s.pingCount > 3 →
      wsPingCheck now sndbuf hz s = { s with state := WsState.Closing }) ∧
    (wsParse { initSession with pingCount := k }
        [0x8A, 0x80, 0, 0, 0, 0]).1.pingCount = 0 := by
  refine ⟨?_, ?_, ?_⟩
  · intro h1 h2 h3
    rw [wsPingCheck]
    rw [if_neg (by omega)]
    rw [if_pos ⟨by rw [hconn]; simp, h2⟩]
    rw [if_pos h3]
  · intro h1
    rw [wsPingCheck, if_pos h1]
  · exact pong_resets { initSession with pingCount := k } rfl

theorem C8_ping_liveness_witness :
    wsPingCheck 4 10 1 initSession =
      { initSession with out := [[0x89, 2, 72, 105]],
                         lastSendTime := 4, pingCount := 1 } ∧
    wsPingCheck 20 10 1 { initSession with pingCount := 4 } =
      { initSession with pingCount := 4, state := WsState.Closing } ∧
    (wsParse { initSession with pingCount := 4 }
        [0x8A, 0x80, 0, 0, 0, 0]).1.pingCount = 0 := by
  have h := C8_ping_liveness 4 10 1 4 initSession rfl
  have h2 := C8_ping_liveness 20 10 1 4 { initSession with pingCount := 4 } rfl
  exact ⟨h.1 (by decide) (by decide) (by decide), h2.2.1 (by decide), h2.2.2⟩

theorem hdrStep_complete_mono (h : FrameHeader) (b : Nat) (hc : h.complete = true) :
    (hdrStep h b).complete = true := by
  simp only [hdrStep]
  split <;> split <;> (try split) <;> (try split) <;> simp_all

theorem HInv_step (h : FrameHeader) (b : Nat) (hi : HInv h) : HInv (hdrStep h b) := by
  rcases Bool.eq_false_or_eq_true h.complete with hc | hc
  · intro hc2
    rw [hdrStep_complete_mono h b hc] at hc2
    cases hc2
  · have hb := hi hc
    intro hc2
    revert hb hc2
    simp only [hdrStep, hc]
    split_ifs <;> simp_all <;> omega

theorem HInv_foldl (bs : List Nat) (h : FrameHeader) (hi : HInv h) :
    HInv (bs.foldl hdrStep h) := by
  induction bs generalizing h with
  | nil => exact hi
  | cons b r ihb => exact ihb (hdrStep h b) (HInv_step h b hi)

theorem HInv_empty : HInv FrameHeader.empty := by
  intro h1
  decide

theorem hdrStep_completes_at (h : FrameHeader) (b : Nat) (hi : HInv h)
    (hc : h.complete = false) (hc2 : (hdrStep h b).complete = true) :
    ((hdrStep h b).idx = 6 ∧ h.payload_len ≠ 126) ∨
      ((hdrStep h b).idx = 8 ∧ h.payload_len = 126) := by
  have hb := hi hc
  rw [hdrStep_idx]
  revert hb hc2
  simp only [hdrStep, hc]
  split_ifs <;> simp_all <;> omega

theorem hdrStep_len_decode (h : FrameHeader) (b : Nat) (hidx : h.idx = 1) :
    (hdrStep h b).payload_len = b &&& 127 := by
  simp only [hdrStep, hidx, upd]
  norm_num

/-- C10: header collection is bounded: `idx` increments by exactly one per
byte and, before completion, stays at most 7 (at most 5 unless the 126
escape is active), so every write to the 13-byte `data` array is in bounds
and `idx` never exceeds 8; the header completes exactly at 6 bytes (7-bit
length) or 8 bytes (126 escape); the second header byte's low 7 bits are
taken literally as the length (so 127 is a literal length, not an escape);
and the bound is an invariant of the collection loop from the zeroed
header. -/
theorem C10_header_index_bounds (h : FrameHeader) (b : Nat) (bs : List Nat)
    (hi : HInv h) :
    HInv (hdrStep h b) ∧
    (hdrStep h b).idx = h.idx + 1 ∧
    (h.complete = false → h.idx + 1 ≤ 8 ∧ h.idx < 13) ∧
    (h.complete = false → (hdrStep h b).complete = true →
      ((hdrStep h b).idx = 6 ∧ h.payload_len ≠ 126) ∨
      ((hdrStep h b).idx = 8 ∧ h.payload_len = 126)) ∧
    (h.idx = 1 → (hdrStep h b).payload_len = b &&& 127) ∧
    HInv (bs.foldl hdrStep FrameHeader.empty) := by
  refine ⟨HInv_step h b hi, hdrStep_idx h b, ?_, ?_, ?_, ?_⟩
  · intro hc
    have hb := hi hc
    constructor <;> (revert hb; split <;> omega)
  · exact hdrStep_completes_at h b hi
  · intro hidx
    exact hdrStep_len_decode h b hidx
  · exact HInv_foldl bs FrameHeader.empty HInv_empty

theorem C10_header_index_bounds_witness :
    (hdrStep FrameHeader.empty 137).idx = 1 ∧
    (FrameHeader.empty.complete = false →
      FrameHeader.empty.idx + 1 ≤ 8 ∧ FrameHeader.empty.idx < 13) :=
  ⟨(C10_header_index_bounds FrameHeader.empty 137 [] (by intro h1; decide)).2.1,
   (C10_header_index_bounds FrameHeader.empty 137 [] (by intro h1; decide)).2.2.1⟩

theorem xorStream_take (f : Nat → Nat) :
    ∀ (l : List Nat) (i m : Nat), (xorStream f i l).take m = xorStream f i (l.take m)
  | [], i, m => by simp [xorStream]
  | b :: r, i, 0 => by simp [xorStream]
  | b :: r, i, m + 1 => by
      simp only [xorStream, List.take_succ_cons]
      rw [xorStream_take f r (i + 1) m]

theorem xorStream_drop (f : Nat → Nat) :
    ∀ (l : List Nat) (i m : Nat), (xorStream f i l).drop m = xorStream f (i + m) (l.drop m)
  | [], i, m => by simp [xorStream]
  | b :: r, i, 0 => by simp [xorStream]
  | b :: r, i, m + 1 => by
      simp only [xorStream, List.drop_succ_cons]
      rw [xorStream_drop f r (i + 1) m]
      congr 1
      omega

theorem xorStream_cancel (f g : Nat → Nat) (hfg : ∀ j, j < 4 → g j = f j) :
    ∀ (l : List Nat) (i : Nat), xorStream g i (xorStream f i l) = l
  | [], i => by simp [xorStream]
  | b :: r, i => by
      simp only [xorStream]
      rw [hfg (i % 4) (Nat.mod_lt _ (by norm_num)), Nat.xor_cancel_right]
      rw [xorStream_cancel f g hfg r (i + 1)]

theorem collectHeader_complete (h : FrameHeader) (hc : h.complete = true) :
    ∀ (rest : List Nat), collectHeader h rest = (h, rest)
  | [] => by simp [collectHeader]
  | b :: r => by simp [collectHeader, hc]

theorem collectHeader_hdr (F : ClientFrame) (rest : List Nat) :
    ∀ (k j : Nat), j + k = F.hdrLen →
    collectHeader (hdrIter (F.hdrBytes.take j)) (F.hdrBytes.drop j ++ rest) =
      (postHdr F, rest)
  | 0, j, hk => by
      have hlen : F.hdrBytes.length = F.hdrLen := F.hdrBytes_length
      have hj : j = F.hdrBytes.length := by omega
      subst hj
      rw [List.take_length, List.drop_length, List.nil_append]
      exact collectHeader_complete (hdrIter F.hdrBytes) (postHdr_facts F).1 rest
  | k + 1, j, hk => by
      have hlen : F.hdrBytes.length = F.hdrLen := F.hdrBytes_length
      have hj : j < F.hdrBytes.length := by omega
      have hinc : (hdrIter (F.hdrBytes.take j)).complete = false := by
        rw [← F.bytes_take_hdr j (by omega)]
        exact hdrIter_incomplete F j (by omega)
      rw [drop_cons_getD F.hdrBytes j hj, List.cons_append, collectHeader,
        if_neg (by rw [hinc]; exact Bool.false_ne_true),
        ← hdrIter_succ F.hdrBytes j hj]
      exact collectHeader_hdr F rest k (j + 1) (by omega)

theorem wsParse_clean_eq (s : Session) (F : ClientFrame) (w : List Nat)
    (hhdr : s.header = FrameHeader.empty) (hFok : F.Ok) (hw0 : w ≠ []) :
    wsParse s (F.hdrBytes ++ w) =
      wsEpilogue (textProcess
        (if tokFin F.b0 = false
          then { s with header := postHdr F, fragment_opcode := F.op }
          else { s with header := postHdr F })
        F.b0 (tokFin F.b0) w) := by
  have hpf := postHdr_facts F
  have hch : collectHeader FrameHeader.empty (F.hdrBytes ++ w) = (postHdr F, w) := by
    simpa using collectHeader_hdr F w F.hdrLen 0 (by omega)
  have hop16 : F.op < 16 := by rcases hFok.1 with h | h <;> omega
  have hopv : tokOpcode F.b0 = F.op := tokOpcode_b0 F hop16
  have hdata0 : (postHdr F).data 0 = F.b0 := hpf.2.2.2.2.2.2.1
  have hcm : (postHdr F).complete = true := hpf.1
  simp only [wsParse, hhdr, hch]
  rw [if_pos ⟨hcm, Or.inl hw0⟩]
  rw [hdata0, hopv]
  rcases hFok.1 with h1 | h1 <;> rw [h1] <;>
    simp [wsDispatch, textProcess]

theorem textBody_whole (s5 : Session) (F : ClientFrame) (t : Nat)
    (hst : s5.state = WsState.Connected) (hhdr : s5.header = postHdr F)
    (hFok : F.Ok) (hw : RWF s5.rxbuf)
    (hbud : rxbufCount s5.rxbuf + F.payload.length ≤ RX_BUFFER_SIZE - 1) :
    (wsEpilogue (textBody s5 t (xorStream F.mask 0 F.payload))).2 = [] ∧
    ringList (wsEpilogue (textBody s5 t (xorStream F.mask 0 F.payload))).1.rxbuf
      = ringList s5.rxbuf ++ F.payload ∧
    (wsEpilogue (textBody s5 t (xorStream F.mask 0 F.payload))).1.header
      = FrameHeader.empty ∧
    (wsEpilogue (textBody s5 t (xorStream F.mask 0 F.payload))).1.state
      = WsState.Connected ∧
    RWF (wsEpilogue (textBody s5 t (xorStream F.mask 0 F.payload))).1.rxbuf := by
  have hpf := postHdr_facts F
  have hlen : (xorStream F.mask 0 F.payload).length = F.payload.length :=
    xorStream_length F.mask 0 F.payload
  have hremeq : s5.header.payload_rem = s5.header.payload_len - s5.header.rx_index := by
    rw [hhdr, hpf.2.2.1, hpf.2.1, hpf.2.2.2.1]
    omega
  have hrem : 0 < s5.header.payload_rem := by
    rw [hhdr, hpf.2.2.1]
    exact hFok.2.1
  have hbud2 : rxbufCount s5.rxbuf + (xorStream F.mask 0 F.payload).length
      ≤ RX_BUFFER_SIZE - 1 := by rw [hlen]; exact hbud
  have e1 : s5.header.payload_rem = F.payload.length := by rw [hhdr, hpf.2.2.1]
  have emin : min s5.header.payload_rem (xorStream F.mask 0 F.payload).length
      = (xorStream F.mask 0 F.payload).length := by rw [e1, hlen, Nat.min_self]
  have etake : (xorStream F.mask 0 F.payload).take
      (min s5.header.payload_rem (xorStream F.mask 0 F.payload).length)
      = xorStream F.mask 0 F.payload := by rw [emin, List.take_length]
  have edrop : (xorStream F.mask 0 F.payload).drop
      (min s5.header.payload_rem (xorStream F.mask 0 F.payload).length) = [] := by
    rw [emin, List.drop_length]
  have ecanc : xorStream s5.header.mask s5.header.rx_index
      (xorStream F.mask 0 F.payload) = F.payload := by
    rw [hhdr, hpf.2.2.2.1]
    exact xorStream_cancel F.mask (postHdr F).mask hpf.2.2.2.2.2.2.2 F.payload 0
  have edone : decide (s5.header.payload_rem ≤ (xorStream F.mask 0 F.payload).length)
      = true := by rw [e1, hlen]; simp
  have hins := rbInsertMany_spec F.payload s5.rxbuf hw (by omega)
  rw [textBody_spec s5 t (xorStream F.mask 0 F.payload) hst hw hremeq hrem hbud2]
  rw [etake, edrop, ecanc, edone]
  simp only [wsEpilogue, if_pos]
  refine ⟨by trivial, ?_, by trivial, hst, hins.1⟩
  exact hins.2.2.2

theorem textBody_first (s5 : Session) (F : ClientFrame) (t : Nat) (m : Nat)
    (hst : s5.state = WsState.Connected) (hhdr : s5.header = postHdr F)
    (hFok : F.Ok) (hw : RWF s5.rxbuf) (hm : 0 < m) (hmlt : m < F.payload.length)
    (hbud : rxbufCount s5.rxbuf + m ≤ RX_BUFFER_SIZE - 1) :
    (wsEpilogue (textBody s5 t ((xorStream F.mask 0 F.payload).take m))).2 = [] ∧
    ringList (wsEpilogue (textBody s5 t
        ((xorStream F.mask 0 F.payload).take m))).1.rxbuf
      = ringList s5.rxbuf ++ F.payload.take m ∧
    (wsEpilogue (textBody s5 t ((xorStream F.mask 0 F.payload).take m))).1.header
      = { postHdr F with rx_index := m, payload_rem := F.payload.length - m } ∧
    (wsEpilogue (textBody s5 t ((xorStream F.mask 0 F.payload).take m))).1.state
      = WsState.Connected ∧
    RWF (wsEpilogue (textBody s5 t ((xorStream F.mask 0 F.payload).take m))).1.rxbuf ∧
    rxbufCount (wsEpilogue (textBody s5 t
        ((xorStream F.mask 0 F.payload).take m))).1.rxbuf = rxbufCount s5.rxbuf + m := by
  have hpf := postHdr_facts F
  have hxlen : (xorStream F.mask 0 F.payload).length = F.payload.length :=
    xorStream_length F.mask 0 F.payload
  have hlen : ((xorStream F.mask 0 F.payload).take m).length = m := by
    rw [List.length_take, hxlen]
    omega
  have hremeq : s5.header.payload_rem = s5.header.payload_len - s5.header.rx_index := by
    rw [hhdr, hpf.2.2.1, hpf.2.1, hpf.2.2.2.1]
    omega
  have hrem : 0 < s5.header.payload_rem := by
    rw [hhdr, hpf.2.2.1]
    exact hFok.2.1
  have hbud2 : rxbufCount s5.rxbuf + ((xorStream F.mask 0 F.payload).take m).length
      ≤ RX_BUFFER_SIZE - 1 := by rw [hlen]; exact hbud
  have e1 : s5.header.payload_rem = F.payload.length := by rw [hhdr, hpf.2.2.1]
  have emin : min s5.header.payload_rem ((xorStream F.mask 0 F.payload).take m).length
      = m := by rw [e1, hlen]; omega
  have etake : ((xorStream F.mask 0 F.payload).take m).take
      (min s5.header.payload_rem ((xorStream F.mask 0 F.payload).take m).length)
      = xorStream F.mask 0 (F.payload.take m) := by
    rw [emin, List.take_take, Nat.min_self, xorStream_take]
  have edrop : ((xorStream F.mask 0 F.payload).take m).drop
      (min s5.header.payload_rem ((xorStream F.mask 0 F.payload).take m).length)
      = [] := by
    rw [emin]
    exact List.drop_eq_nil_of_le (le_of_eq hlen)
  have ecanc : xorStream s5.header.mask s5.header.rx_index
      (xorStream F.mask 0 (F.payload.take m)) = F.payload.take m := by
    rw [hhdr, hpf.2.2.2.1]
    exact xorStream_cancel F.mask (postHdr F).mask hpf.2.2.2.2.2.2.2 (F.payload.take m) 0
  have edone : decide (s5.header.payload_rem
      ≤ ((xorStream F.mask 0 F.payload).take m).length) = false := by
    rw [e1, hlen]
    simp
    omega
  have hins := rbInsertMany_spec (F.payload.take m) s5.rxbuf hw
    (by rw [List.length_take]; omega)
  have htklen : (F.payload.take m).length = m := by rw [List.length_take]; omega
  rw [textBody_spec s5 t ((xorStream F.mask 0 F.payload).take m) hst hw hremeq hrem hbud2]
  rw [etake, edrop, ecanc, edone]
  simp only [wsEpilogue, Bool.false_eq_true, if_false]
  refine ⟨by trivial, ?_, ?_, hst, hins.1, ?_⟩
  · exact hins.2.2.2
  · rw [emin, e1, hhdr, hpf.2.2.2.1]
    norm_num
  · rw [hins.2.1, htklen]

theorem wsParse_whole (s : Session) (F : ClientFrame)
    (hst : s.state = WsState.Connected) (hhdr : s.header = FrameHeader.empty)
    (hFok : F.Ok) (hw : RWF s.rxbuf)
    (hbud : rxbufCount s.rxbuf + F.payload.length ≤ RX_BUFFER_SIZE - 1) :
    (wsParse s F.bytes).2 = [] ∧
    ringList (wsParse s F.bytes).1.rxbuf = ringList s.rxbuf ++ F.payload ∧
    (wsParse s F.bytes).1.header = FrameHeader.empty ∧
    (wsParse s F.bytes).1.state = WsState.Connected ∧
    RWF (wsParse s F.bytes).1.rxbuf := by
  have hxlen : (xorStream F.mask 0 F.payload).length = F.payload.length :=
    xorStream_length F.mask 0 F.payload
  have hne : xorStream F.mask 0 F.payload ≠ [] := by
    intro hcon
    rw [hcon] at hxlen
    have := hFok.2.1
    simp at hxlen
    omega
  have hce := wsParse_clean_eq s F (xorStream F.mask 0 F.payload) hhdr hFok hne
  rw [show F.bytes = F.hdrBytes ++ xorStream F.mask 0 F.payload from rfl, hce]
  cases hf : tokFin F.b0 with
  | false =>
      rw [if_pos rfl]
      simp only [textProcess]
      rw [if_neg Bool.false_ne_true]
      exact textBody_whole
        { s with header := postHdr F, fragment_opcode := F.op } F F.b0
        hst rfl hFok hw hbud
  | true =>
      rw [if_neg (by simp)]
      simp only [textProcess]
      rw [if_pos trivial]
      exact textBody_whole
        { s with header := postHdr F, fragment_opcode := 0 } F F.b0
        hst rfl hFok hw hbud

theorem wsParse_first (s : Session) (F : ClientFrame) (m : Nat)
    (hst : s.state = WsState.Connected) (hhdr : s.header = FrameHeader.empty)
    (hFok : F.Ok) (hw : RWF s.rxbuf) (hm : 0 < m) (hmlt : m < F.payload.length)
    (hbud : rxbufCount s.rxbuf + m ≤ RX_BUFFER_SIZE - 1) :
    (wsParse s (F.bytes.take (F.hdrLen + m))).2 = [] ∧
    ringList (wsParse s (F.bytes.take (F.hdrLen + m))).1.rxbuf
      = ringList s.rxbuf ++ F.payload.take m ∧
    (wsParse s (F.bytes.take (F.hdrLen + m))).1.header
      = { postHdr F with rx_index := m, payload_rem := F.payload.length - m } ∧
    (wsParse s (F.bytes.take (F.hdrLen + m))).1.state = WsState.Connected ∧
    RWF (wsParse s (F.bytes.take (F.hdrLen + m))).1.rxbuf ∧
    rxbufCount (wsParse s (F.bytes.take (F.hdrLen + m))).1.rxbuf
      = rxbufCount s.rxbuf + m := by
  have hxlen : (xorStream F.mask 0 F.payload).length = F.payload.length :=
    xorStream_length F.mask 0 F.payload
  have hsplit : F.bytes.take (F.hdrLen + m)
      = F.hdrBytes ++ (xorStream F.mask 0 F.payload).take m := by
    rw [show F.bytes = F.hdrBytes ++ xorStream F.mask 0 F.payload from rfl]
    rw [← F.hdrBytes_length]
    exact List.take_append m
  have hne : (xorStream F.mask 0 F.payload).take m ≠ [] := by
    intro hcon
    have : ((xorStream F.mask 0 F.payload).take m).length = 0 := by rw [hcon]; rfl
    rw [List.length_take, hxlen] at this
    omega
  have hce := wsParse_clean_eq s F ((xorStream F.mask 0 F.payload).take m) hhdr hFok hne
  rw [hsplit, hce]
  cases hf : tokFin F.b0 with
  | false =>
      rw [if_pos rfl]
      simp only [textProcess]
      rw [if_neg Bool.false_ne_true]
      exact textBody_first
        { s with header := postHdr F, fragment_opcode := F.op } F F.b0 m
        hst rfl hFok hw hm hmlt hbud
  | true =>
      rw [if_neg (by simp)]
      simp only [textProcess]
      rw [if_pos trivial]
      exact textBody_first
        { s with header := postHdr F, fragment_opcode := 0 } F F.b0 m
        hst rfl hFok hw hm hmlt hbud

theorem wsParse_second (s1 : Session) (F : ClientFrame) (m : Nat)
    (hst : s1.state = WsState.Connected)
    (hhdr : s1.header
      = { postHdr F with rx_index := m, payload_rem := F.payload.length - m })
    (hFok : F.Ok) (hw : RWF s1.rxbuf) (hm : 0 < m) (hmlt : m < F.payload.length)
    (hbud : rxbufCount s1.rxbuf + (F.payload.length - m) ≤ RX_BUFFER_SIZE - 1) :
    (wsParse s1 ((xorStream F.mask 0 F.payload).drop m)).2 = [] ∧
    ringList (wsParse s1 ((xorStream F.mask 0 F.payload).drop m)).1.rxbuf
      = ringList s1.rxbuf ++ F.payload.drop m ∧
    (wsParse s1 ((xorStream F.mask 0 F.payload).drop m)).1.header
      = FrameHeader.empty ∧
    (wsParse s1 ((xorStream F.mask 0 F.payload).drop m)).1.state
      = WsState.Connected ∧
    RWF (wsParse s1 ((xorStream F.mask 0 F.payload).drop m)).1.rxbuf := by
  have hpf := postHdr_facts F
  have hop16 : F.op < 16 := by rcases hFok.1 with h | h <;> omega
  have hxlen : (xorStream F.mask 0 F.payload).length = F.payload.length :=
    xorStream_length F.mask 0 F.payload
  have hlen : ((xorStream F.mask 0 F.payload).drop m).length = F.payload.length - m := by
    rw [List.length_drop, hxlen]
  have hne : (xorStream F.mask 0 F.payload).drop m ≠ [] := by
    intro hcon
    rw [hcon] at hlen
    simp at hlen
    omega
  have hcomp : s1.header.complete = true := by rw [hhdr]; exact hpf.1
  have hd0 : s1.header.data 0 = F.b0 := by rw [hhdr]; exact hpf.2.2.2.2.2.2.1
  have hop : tokOpcode (s1.header.data 0) = 1 ∨ tokOpcode (s1.header.data 0) = 2 := by
    rw [hd0, tokOpcode_b0 F hop16]
    exact hFok.1
  have hpl : s1.header.payload_len = F.payload.length := by rw [hhdr]; exact hpf.2.1
  have hri : s1.header.rx_index = m := by rw [hhdr]
  have hpr : s1.header.payload_rem = F.payload.length - m := by rw [hhdr]
  have hremeq : s1.header.payload_rem = s1.header.payload_len - s1.header.rx_index := by
    rw [hpr, hpl, hri]
  have hrem : 0 < s1.header.payload_rem := by rw [hpr]; omega
  have hbud2 : rxbufCount s1.rxbuf + ((xorStream F.mask 0 F.payload).drop m).length
      ≤ RX_BUFFER_SIZE - 1 := by rw [hlen]; exact hbud
  have hmask : s1.header.mask = (postHdr F).mask := by rw [hhdr]
  rw [wsParse_text s1 ((xorStream F.mask 0 F.payload).drop m) hne hst hcomp hop
    hremeq hrem hw hbud2]
  rw [if_pos (by rw [hpr, hlen])]
  have emin : min s1.header.payload_rem ((xorStream F.mask 0 F.payload).drop m).length
      = F.payload.length - m := by rw [hpr, hlen, Nat.min_self]
  have etake : ((xorStream F.mask 0 F.payload).drop m).take
      (min s1.header.payload_rem ((xorStream F.mask 0 F.payload).drop m).length)
      = xorStream F.mask m (F.payload.drop m) := by
    rw [emin, ← hlen, List.take_length, xorStream_drop]
    norm_num
  have edrop : ((xorStream F.mask 0 F.payload).drop m).drop
      (min s1.header.payload_rem ((xorStream F.mask 0 F.payload).drop m).length)
      = [] := by
    rw [emin]
    exact List.drop_eq_nil_of_le (le_of_eq hlen)
  have ecanc : xorStream s1.header.mask s1.header.rx_index
      (xorStream F.mask m (F.payload.drop m)) = F.payload.drop m := by
    rw [hmask, hri]
    exact xorStream_cancel F.mask (postHdr F).mask hpf.2.2.2.2.2.2.2 (F.payload.drop m) m
  have hins := rbInsertMany_spec (F.payload.drop m) s1.rxbuf hw
    (by rw [List.length_drop]; omega)
  rw [etake, edrop, ecanc]
  refine ⟨rfl, ?_, rfl, hst, hins.1⟩
  exact hins.2.2.2

/-- C4: inbound payload bytes are unmasked with `mask[i % 4]` at the
cumulative payload offset `i` (carried in `rx_index` across calls, not
reset at chunk boundaries): for a well-formed masked data frame, parsing
the whole frame, or parsing it split mid-payload at any offset `m` across
two `WsParse` calls, delivers exactly the original payload bytes to the
inbound ring. -/
theorem C4_masking_round_trip (s : Session) (F : ClientFrame) (m : Nat)
    (hst : s.state = WsState.Connected) (hhdr : s.header = FrameHeader.empty)
    (hFok : F.Ok) (hw : RWF s.rxbuf) (hm : 0 < m) (hmlt : m < F.payload.length)
    (hbud : rxbufCount s.rxbuf + F.payload.length ≤ RX_BUFFER_SIZE - 1) :
    ringList (wsParse s F.bytes).1.rxbuf = ringList s.rxbuf ++ F.payload ∧
    (wsParse s F.bytes).2 = [] ∧
    (wsParse s (F.bytes.take (F.hdrLen + m))).2 = [] ∧
    (wsParse (wsParse s (F.bytes.take (F.hdrLen + m))).1
        (F.bytes.drop (F.hdrLen + m))).2 = [] ∧
    ringList (wsParse (wsParse s (F.bytes.take (F.hdrLen + m))).1
        (F.bytes.drop (F.hdrLen + m))).1.rxbuf = ringList s.rxbuf ++ F.payload := by
  have hwhole := wsParse_whole s F hst hhdr hFok hw hbud
  have hfirst := wsParse_first s F m hst hhdr hFok hw hm hmlt (by omega)
  have hdsplit : F.bytes.drop (F.hdrLen + m) = (xorStream F.mask 0 F.payload).drop m := by
    rw [show F.bytes = F.hdrBytes ++ xorStream F.mask 0 F.payload from rfl,
      ← F.hdrBytes_length]
    exact List.drop_append m
  have hsecond := wsParse_second (wsParse s (F.bytes.take (F.hdrLen + m))).1 F m
    hfirst.2.2.2.1 hfirst.2.2.1 hFok hfirst.2.2.2.2.1 hm hmlt
    (by rw [hfirst.2.2.2.2.2]; omega)
  rw [hdsplit]
  refine ⟨hwhole.2.1, hwhole.1, hfirst.1, hsecond.1, ?_⟩
  rw [hsecond.2.1, hfirst.2.1, List.append_assoc, List.take_append_drop]

theorem C4_masking_round_trip_witness :
    ringList (wsParse initSession
      (ClientFrame.bytes ⟨true, 2, fun j => [5, 6, 7, 8].getD j 0, [10, 20, 30]⟩)).1.rxbuf
      = ringList initSession.rxbuf ++ [10, 20, 30] ∧
    (wsParse initSession
      (ClientFrame.bytes ⟨true, 2, fun j => [5, 6, 7, 8].getD j 0, [10, 20, 30]⟩)).2 = [] ∧
    (wsParse initSession
      ((ClientFrame.bytes ⟨true, 2, fun j => [5, 6, 7, 8].getD j 0, [10, 20, 30]⟩).take
        (ClientFrame.hdrLen ⟨true, 2, fun j => [5, 6, 7, 8].getD j 0, [10, 20, 30]⟩ + 1))).2
      = [] ∧
    (wsParse (wsParse initSession
      ((ClientFrame.bytes ⟨true, 2, fun j => [5, 6, 7, 8].getD j 0, [10, 20, 30]⟩).take
        (ClientFrame.hdrLen ⟨true, 2, fun j => [5, 6, 7, 8].getD j 0, [10, 20, 30]⟩ + 1))).1
      ((ClientFrame.bytes ⟨true, 2, fun j => [5, 6, 7, 8].getD j 0, [10, 20, 30]⟩).drop
        (ClientFrame.hdrLen ⟨true, 2, fun j => [5, 6, 7, 8].getD j 0, [10, 20, 30]⟩ + 1))).2
      = [] ∧
    ringList (wsParse (wsParse initSession
      ((ClientFrame.bytes ⟨true, 2, fun j => [5, 6, 7, 8].getD j 0, [10, 20, 30]⟩).take
        (ClientFrame.hdrLen ⟨true, 2, fun j => [5, 6, 7, 8].getD j 0, [10, 20, 30]⟩ + 1))).1
      ((ClientFrame.bytes ⟨true, 2, fun j => [5, 6, 7, 8].getD j 0, [10, 20, 30]⟩).drop
        (ClientFrame.hdrLen ⟨true, 2, fun j => [5, 6, 7, 8].getD j 0, [10, 20, 30]⟩ + 1))).1.rxbuf
      = ringList initSession.rxbuf ++ [10, 20, 30] :=
  C4_masking_round_trip initSession ⟨true, 2, fun j => [5, 6, 7, 8].getD j 0, [10, 20, 30]⟩ 1
    rfl rfl
    ⟨Or.inr rfl, by decide, by decide,
      fun j hj => List.getD_eq_default _ _ (by simpa using hj)⟩
    (by refine ⟨?_, ?_, rfl⟩ <;> decide) (by decide) (by decide) (by decide)

theorem maskBytes_xor (M : List Nat) :
    ∀ (l : List Nat) (i : Nat), maskBytes M i l = xorStream (fun j => M.getD j 0) i l
  | [], i => rfl
  | b :: r, i => by
      simp only [maskBytes, xorStream]
      rw [maskBytes_xor M r (i + 1)]

theorem clientMaskWire_bytes (op m0 m1 m2 m3 : Nat) (p : List Nat)
    (hp : 0 < p.length) (hlt : p.length < 65536) :
    clientMaskWire (wsEncodeFrame (128 + op) p) [m0, m1, m2, m3]
      = ClientFrame.bytes ⟨true, op, fun j => [m0, m1, m2, m3].getD j 0, p⟩ := by
  by_cases h126 : p.length < 126
  · simp [wsEncodeFrame, clientMaskWire, ClientFrame.bytes, ClientFrame.hdrBytes,
      ClientFrame.b0, h126, maskBytes_xor]
  · have hhi : (p.length >>> 8) &&& 255 = p.length / 256 := by
      rw [Nat.shiftRight_eq_div_pow]
      have h1 : p.length / 2 ^ 8 &&& (2 ^ 8 - 1) = p.length / 2 ^ 8 % 2 ^ 8 :=
        Nat.and_pow_two_sub_one_eq_mod _ 8
      norm_num at h1 ⊢
      rw [h1]
      have : p.length / 256 < 256 := by omega
      omega
    have hlo : p.length &&& 255 = p.length % 256 := by
      have h1 : p.length &&& (2 ^ 8 - 1) = p.length % 2 ^ 8 :=
        Nat.and_pow_two_sub_one_eq_mod _ 8
      norm_num at h1
      exact h1
    simp [wsEncodeFrame, clientMaskWire, ClientFrame.bytes, ClientFrame.hdrBytes,
      ClientFrame.b0, h126, maskBytes_xor, hhi, hlo]

/-- C3: the original claim fails — the outbound encoder emits unmasked
server frames while `WsParse` always consumes 4 mask bytes, so the
encoder's own output does not decode: for the text token and payload `[7]`
the parser swallows all three encoded bytes as an incomplete header and
delivers nothing (payload lengths 0 and 65535 also fail for independent
reasons: zero-length frames wedge the parser and 65535 exceeds the ring). -/
theorem C3_counterexample :
    wsEncodeFrame 0x81 [7] = [0x81, 1, 7] ∧
    (wsParse initSession (wsEncodeFrame 0x81 [7])).2 = [] ∧
    (wsParse initSession (wsEncodeFrame 0x81 [7])).1.header.complete = false ∧
    rxbufCount (wsParse initSession (wsEncodeFrame 0x81 [7])).1.rxbuf = 0 := by
  refine ⟨by decide, by decide, by decide, by decide⟩

/-- C3 (amended): the round trip holds once the encoder's wire form is
client-masked (mask bit set, 4 mask bytes spliced in, payload XOR-masked):
for text and binary opcodes and any payload of 1 up to 1023 bytes
(covering the 7-bit lengths 1 and 125 and the 16-bit-escape lengths 126
and 127; the ring holds at most 1023 bytes), `WsParse` on the masked
serialization consumes the whole frame and delivers exactly the original
payload. -/
theorem C3_encode_decode_round_trip (op m0 m1 m2 m3 : Nat) (p : List Nat)
    (hop : op = 1 ∨ op = 2) (hp : 0 < p.length)
    (hlen : p.length ≤ RX_BUFFER_SIZE - 1) :
    (wsParse initSession
      (clientMaskWire (wsEncodeFrame (128 + op) p) [m0, m1, m2, m3])).2 = [] ∧
    ringList (wsParse initSession
      (clientMaskWire (wsEncodeFrame (128 + op) p) [m0, m1, m2, m3])).1.rxbuf = p := by
  have hsz : RX_BUFFER_SIZE = 1024 := rfl
  have hlt : p.length < 65536 := by omega
  rw [clientMaskWire_bytes op m0 m1 m2 m3 p hp hlt]
  have hFok : ClientFrame.Ok ⟨true, op, fun j => [m0, m1, m2, m3].getD j 0, p⟩ :=
    ⟨hop, hp, hlt, fun j hj => List.getD_eq_default _ _ (by simpa using hj)⟩
  have h0 : rxbufCount initSession.rxbuf = 0 := by decide
  have hwhole := wsParse_whole initSession
    ⟨true, op, fun j => [m0, m1, m2, m3].getD j 0, p⟩ rfl rfl hFok
    (by refine ⟨?_, ?_, rfl⟩ <;> decide)
    (by show rxbufCount initSession.rxbuf + p.length ≤ RX_BUFFER_SIZE - 1
        omega)
  refine ⟨hwhole.1, ?_⟩
  rw [hwhole.2.1]
  have hnil : ringList initSession.rxbuf = [] := by decide
  rw [hnil, List.nil_append]

theorem C3_encode_decode_round_trip_witness :
    (wsParse initSession
      (clientMaskWire (wsEncodeFrame (128 + 1) [9, 8]) [1, 2, 3, 4])).2 = [] ∧
    ringList (wsParse initSession
      (clientMaskWire (wsEncodeFrame (128 + 1) [9, 8]) [1, 2, 3, 4])).1.rxbuf
      = [9, 8] :=
  C3_encode_decode_round_trip 1 1 2 3 4 [9, 8] (Or.inl rfl) (by decide) (by decide)

theorem ringList_length (r : RxBuf) : (ringList r).length = rxbufCount r := by
  simp [ringList]

set_option maxRecDepth 8192 in
/-- `WsParse` on a single 1023-byte data frame fills the inbound ring to
its capacity of `RX_BUFFER_SIZE - 1` slots: the full-ring state is reached
through the parser itself. -/
theorem ring_fills_to_capacity :
    (wsParse initSession (ClientFrame.bytes
      ⟨true, 1, fun _ => 0, List.replicate 1023 7⟩)).1.state = WsState.Connected ∧
    RWF (wsParse initSession (ClientFrame.bytes
      ⟨true, 1, fun _ => 0, List.replicate 1023 7⟩)).1.rxbuf ∧
    rxbufCount (wsParse initSession (ClientFrame.bytes
      ⟨true, 1, fun _ => 0, List.replicate 1023 7⟩)).1.rxbuf = RX_BUFFER_SIZE - 1 := by
  have hsz : RX_BUFFER_SIZE = 1024 := rfl
  have hFok : ClientFrame.Ok ⟨true, 1, fun _ => 0, List.replicate 1023 7⟩ :=
    ⟨Or.inl rfl, by rw [List.length_replicate]; omega,
      by rw [List.length_replicate]; omega, fun j hj => rfl⟩
  have h0 : rxbufCount initSession.rxbuf = 0 := by decide
  have hwhole := wsParse_whole initSession ⟨true, 1, fun _ => 0, List.replicate 1023 7⟩
    rfl rfl hFok (by refine ⟨?_, ?_, rfl⟩ <;> decide)
    (by show rxbufCount initSession.rxbuf + (List.replicate 1023 7).length
          ≤ RX_BUFFER_SIZE - 1
        rw [h0, List.length_replicate]
        omega)
  refine ⟨hwhole.2.2.2.1, hwhole.2.2.2.2, ?_⟩
  have hnil : ringList initSession.rxbuf = [] := by decide
  rw [← ringList_length, hwhole.2.1, hnil, List.nil_append, List.length_replicate]
  omega

/-- C2: the no-loss claim fails: `WsStreamRxInsert` on a full ring (1023
buffered bytes, a state `WsParse` itself reaches on a 1023-byte frame, see
`ring_fills_to_capacity`) reports overflow but still stores the byte and
advances `head` onto `tail`, which makes the ring read as empty: every
buffered payload byte becomes unreadable in one call (`WsStreamGetC`
returns nothing), so bytes are lost rather than re-offered. -/
theorem C2_overflow_insert_wipes_ring (s : Session) (c : Nat)
    (hst : s.state = WsState.Connected) (hw : RWF s.rxbuf)
    (hfull : rxbufCount s.rxbuf = RX_BUFFER_SIZE - 1) :
    (WsStreamRxInsert s c).2 = false ∧
    rxbufCount (WsStreamRxInsert s c).1.rxbuf = 0 ∧
    (WsStreamGetC (WsStreamRxInsert s c).1).2 = none := by
  obtain ⟨hh, ht, ho⟩ := hw
  have hnext : bufnext s.rxbuf.head = s.rxbuf.tail := by
    simp only [rxbufCount, bufcount, RX_BUFFER_SIZE] at hfull hh ht
    simp only [bufnext, RX_BUFFER_SIZE]
    split at hfull <;> omega
  rw [WsStreamRxInsert_eq s c hst]
  refine ⟨?_, ?_, ?_⟩
  · simp [rbInsert, hnext]
  · simp [rxbufCount, rbInsert, hnext, bufcount]
  · simp [WsStreamGetC, rbInsert, hnext]

theorem C2_overflow_insert_wipes_ring_witness :
    (WsStreamRxInsert (wsParse initSession (ClientFrame.bytes
      ⟨true, 1, fun _ => 0, List.replicate 1023 7⟩)).1 55).2 = false ∧
    rxbufCount (WsStreamRxInsert (wsParse initSession (ClientFrame.bytes
      ⟨true, 1, fun _ => 0, List.replicate 1023 7⟩)).1 55).1.rxbuf = 0 ∧
    (WsStreamGetC (WsStreamRxInsert (wsParse initSession (ClientFrame.bytes
      ⟨true, 1, fun _ => 0, List.replicate 1023 7⟩)).1 55).1).2 = none :=
  C2_overflow_insert_wipes_ring _ 55 ring_fills_to_capacity.1
    ring_fills_to_capacity.2.1 ring_fills_to_capacity.2.2

end WsStream
